import Mathlib

/-!
Shallow embedding of `src/Auto.py` (GST & Books auto-fill tool) and proofs
about its column-mapping, value-normalization, sheet-combining and export
logic.

Conventions of the embedding:
* Strings are modelled by Lean `String` over their character lists; the
  character-class tests (`\s`, `\W`, `isdigit`, `upper`) are modelled at
  ASCII level, which covers every header and value the program's alias
  tables and date/number formats are written in.
* A dataframe cell read with `dtype=str` is `Option String`: `none` is a
  missing value (`NaN`), `some s` a string cell.
* `pandas` library calls that the source makes are modelled by their
  documented observable behavior on the inputs the program feeds them;
  each such model carries a comment naming the behavior it reflects.
-/

/-- Python `str.strip()` on a character list: drop leading and trailing
whitespace. -/
def pyStrip (l : List Char) : List Char :=
  ((l.dropWhile Char.isWhitespace).reverse.dropWhile Char.isWhitespace).reverse

/-- Python `re.sub(r'\s+', ' ', s)`: every maximal run of whitespace
characters is replaced by a single space. -/
def collapseWS : List Char → List Char
  | [] => []
  | [c] => if c.isWhitespace then [' '] else [c]
  | c1 :: c2 :: rest =>
    if c1.isWhitespace then
      if c2.isWhitespace then collapseWS (c2 :: rest)
      else ' ' :: collapseWS (c2 :: rest)
    else c1 :: collapseWS (c2 :: rest)

/-- Python regex word character (`\w`): letter, digit or underscore; `re.sub(r'\W', '', s)`
removes exactly the characters for which this is false.  Note the underscore
is a word character and is NOT removed. -/
def isWordChar (c : Char) : Bool := c.isAlphanum || c = '_'

/-- `clean_column_name` (src/Auto.py lines 55-62): strip, collapse internal
whitespace runs, remove non-word characters, uppercase.  (The `str(col)`
coercion is implicit: the model's input is already a string.) -/
def clean_column_name (col : String) : String :=
  ⟨(((collapseWS (pyStrip col.data)).filter isWordChar).map Char.toUpper)⟩

/-- The case-normalized subsequence of word characters (letters, digits,
underscores) of a header: two headers differ only by letter case,
whitespace, or punctuation other than the underscore exactly when their
`wordKey`s agree. -/
def wordKey (s : String) : List Char :=
  (s.data.filter isWordChar).map Char.toUpper

/-- The 12 canonical template columns (src/Auto.py lines 13-17). -/
def template_columns : List String :=
  ["GSTIN/UIN OF RECIPIENT","RECEIVER NAME","INVOICE NO","INVOICE DATE",
   "INVOICE VALUE","PLACE OF SUPPLY","INVOICE TYPE","TAXABLE VALUE",
   "INTEGRATED TAX","CENTRAL TAX","STATE/UT TAX","IRN NUMBER"]

/-- `books_column_map` (src/Auto.py lines 22-35), in dict insertion order. -/
def books_column_map : List (String × List String) :=
  [("GSTIN/UIN OF RECIPIENT", ["Original Customer Billing GSTIN", "Customer GSTIN", "GSTIN", "Customer Billing GSTIN"]),
   ("RECEIVER NAME", ["Customer Name", "Receiver Name", "Billed To Name", "Customer Billing Name"]),
   ("INVOICE NO", ["Original Invoice Number (In case of amendment)", "Invoice Number", "Bill No", "Voucher Number of Linked Advance Receipt", "Document Number"]),
   ("INVOICE DATE", ["Original Invoice Date (In case of amendment)", "Invoice Date", "Bill Date", "Date of Linked Advance Receipt", "Document Date"]),
   ("INVOICE VALUE", ["Invoice Value", "Total Amount", "Invoice Amt"]),
   ("PLACE OF SUPPLY", ["Place of Supply", "State", "State Place of Supply"]),
   ("INVOICE TYPE", ["Type of Export"]),
   ("TAXABLE VALUE", ["Item Taxable Value", "Taxable Amount"]),
   ("INTEGRATED TAX", ["IGST Amount", "Integrated Tax", "IGST Rate"]),
   ("CENTRAL TAX", ["CGST Amount", "Central Tax", "CGST Rate"]),
   ("STATE/UT TAX", ["SGST Amount", "State/UT Tax", "SGST Rate"]),
   ("IRN NUMBER", ["IRN Number", "IRN"])]

/-- `gst_column_map` (src/Auto.py lines 37-50), in dict insertion order. -/
def gst_column_map : List (String × List String) :=
  [("GSTIN/UIN OF RECIPIENT", ["GSTIN/UIN of Recipient"]),
   ("RECEIVER NAME", ["Receiver Name"]),
   ("INVOICE NO", ["Invoice number", "Invoice Number", "Note Number"]),
   ("INVOICE DATE", ["Invoice date", "Invoice Date", "Note Date"]),
   ("INVOICE VALUE", ["Invoice value", "Invoice Value", "Note value"]),
   ("PLACE OF SUPPLY", ["Place of Supply"]),
   ("INVOICE TYPE", ["Invoice Type", "Note Supply Type"]),
   ("TAXABLE VALUE", ["Taxable Value"]),
   ("INTEGRATED TAX", ["Integrated Tax"]),
   ("CENTRAL TAX", ["Central Tax"]),
   ("STATE/UT TAX", ["State/UT Tax"]),
   ("IRN NUMBER", ["IRN"])]

/-- A cell of a dataframe read with `dtype=str`: `none` is `NaN`, `some s`
a string value. -/
abbrev SCell := Option String

/-- A pandas `DataFrame` of string cells, as an ordered list of named
columns plus the length of its row index.  In every frame the program
builds, all columns have length `nrows` (`Frame.wf`); carrying `nrows`
separately lets the model express pandas' special treatment of a frame
whose index is empty. -/
structure Frame where
  nrows : Nat
  cols : List (String × List SCell)
  deriving DecidableEq

/-- Column labels, in order. -/
def Frame.names (f : Frame) : List String := f.cols.map (·.1)

/-- Wellformedness: every column has exactly `nrows` cells.  Frames
produced by `pd.read_excel` satisfy this. -/
def Frame.wf (f : Frame) : Prop := ∀ p ∈ f.cols, p.2.length = f.nrows

instance (f : Frame) : Decidable f.wf :=
  inferInstanceAs (Decidable (∀ p ∈ f.cols, p.2.length = f.nrows))

/-- `df[name]` for a frame with unique column labels (pandas's
`read_excel` mangles duplicate labels, so source frames have unique
labels): the cells of the first column called `name`. -/
def Frame.getCol (f : Frame) (name : String) : List SCell :=
  ((f.cols.find? (·.1 = name)).map (·.2)).getD []

/-- Replace the cells of every column labelled `name` (a no-op when no
column has that label). -/
def Frame.setCol (f : Frame) (name : String) (v : List SCell) : Frame :=
  ⟨f.nrows, f.cols.map (fun p => if p.1 = name then (p.1, v) else p)⟩

/-- `df[name] = scalar`: broadcast a scalar over the current row index.
On a frame with an empty index this leaves the frame without rows. -/
def Frame.setScalar (f : Frame) (name : String) (s : String) : Frame :=
  f.setCol name (List.replicate f.nrows (some s))

/-- `df[name] = series`: pandas aligns on the index.  When the frame's
index is empty and the series is non-empty, pandas adopts the series'
index and reindexes the frame, filling every existing column with `NaN`
(`DataFrame._ensure_valid_index`).  Otherwise the indexes coincide in
this program (both are `RangeIndex(nrows)`), and the column is set. -/
def Frame.setSeries (f : Frame) (name : String) (vals : List SCell) : Frame :=
  if f.nrows = 0 ∧ vals ≠ [] then
    Frame.setCol ⟨vals.length, f.cols.map (fun p => (p.1, List.replicate vals.length none))⟩ name vals
  else
    f.setCol name vals

/-- `pd.DataFrame(columns=template_columns)`: twelve named columns, no
rows. -/
def emptyTemplate : Frame := ⟨0, template_columns.map (fun n => (n, []))⟩

/-- The dict comprehension `{clean_column_name(col): col for col in df.columns}`
(src/Auto.py line 69), as a lookup function: later duplicates overwrite
earlier entries, so a key maps to the LAST source column whose cleaned
name equals it. -/
def df_cols_clean (names : List String) (key : String) : Option String :=
  names.reverse.find? (fun n => clean_column_name n = key)

/-- The inner alias scan of `map_columns` (lines 73-78): the first alias,
in list order, whose cleaned name is a key of `df_cols_clean`; yields the
source column stored under that key. -/
def firstMatch (aliases : List String) (names : List String) : Option String :=
  match aliases with
  | [] => none
  | a :: rest =>
    match df_cols_clean names (clean_column_name a) with
    | some orig => some orig
    | none => firstMatch rest names

/-- One iteration of the `for template_col, possible_cols in column_map.items()`
loop of `map_columns` (lines 71-80). -/
def mapStep (df : Frame) (acc : Frame) (e : String × List String) : Frame :=
  match firstMatch e.2 df.names with
  | some orig => acc.setSeries e.1 (df.getCol orig)
  | none => acc.setScalar e.1 ""

/-- `map_columns` (src/Auto.py lines 64-81). -/
def map_columns (df : Frame) (column_map : List (String × List String)) : Frame :=
  column_map.foldl (mapStep df) emptyTemplate

/-- A calendar date (proleptic Gregorian, as used by `datetime` and
`pandas.Timestamp`). -/
structure D3 where
  y : Nat
  m : Nat
  d : Nat
  deriving DecidableEq, Repr

/-- Gregorian leap year. -/
def isLeap (y : Nat) : Bool := y % 4 = 0 && (!(y % 100 = 0) || y % 400 = 0)

/-- Length of a month. -/
def daysInMonth (y m : Nat) : Nat :=
  match m with
  | 1 => 31 | 2 => if isLeap y then 29 else 28 | 3 => 31 | 4 => 30
  | 5 => 31 | 6 => 30 | 7 => 31 | 8 => 31 | 9 => 30 | 10 => 31
  | 11 => 30 | 12 => 31
  | _ => 0

/-- The dates `datetime` can represent: year 1-9999, valid month and day.
`datetime.strptime` raises `ValueError` outside this. -/
def validDMY (t : D3) : Bool :=
  decide (1 ≤ t.y) && decide (t.y ≤ 9999) && decide (1 ≤ t.m) && decide (t.m ≤ 12) &&
    decide (1 ≤ t.d) && decide (t.d ≤ daysInMonth t.y t.m)

/-- Lexicographic order on dates. -/
def dateLE (a b : D3) : Bool :=
  decide (a.y < b.y) ||
    (decide (a.y = b.y) &&
      (decide (a.m < b.m) || (decide (a.m = b.m) && decide (a.d ≤ b.d))))

/-- The midnight dates representable as a nanosecond `pandas.Timestamp`:
1677-09-22 through 2262-04-11.  `pd.to_datetime` raises
`OutOfBoundsDatetime` outside this range. -/
def tsInRange (t : D3) : Bool := dateLE ⟨1677, 9, 22⟩ t && dateLE t ⟨2262, 4, 11⟩

/-- A `pandas.Timestamp` holding a date at midnight: a valid calendar date
within the representable range. -/
structure TS where
  date : D3
  ok : (validDMY date && tsInRange date) = true

/-- The next calendar day. -/
def nextDay (t : D3) : D3 :=
  if t.d < daysInMonth t.y t.m then ⟨t.y, t.m, t.d + 1⟩
  else if t.m < 12 then ⟨t.y, t.m + 1, 1⟩
  else ⟨t.y + 1, 1, 1⟩

/-- Calendar addition of whole days, as performed by
`Timestamp + pd.to_timedelta(n, unit="D")`. -/
def addDays (t : D3) : Nat → D3
  | 0 => t
  | n + 1 => addDays (nextDay t) n

/-- The digit character for `n < 10`. -/
def digitChar (n : Nat) : Char := Char.ofNat (48 + n)

/-- `strftime("%d-%m-%Y")`: zero-padded day and month (two digits), then a
four-digit year, joined by hyphens.  Faithful for day and month below 100
and year below 10000, which `validDMY` guarantees. -/
def fmtTriple (t : D3) : String :=
  ⟨[digitChar (t.d / 10), digitChar (t.d % 10), '-',
    digitChar (t.m / 10), digitChar (t.m % 10), '-',
    digitChar (t.y / 1000), digitChar (t.y / 100 % 10),
    digitChar (t.y / 10 % 10), digitChar (t.y % 10)]⟩

/-- Numeric value of a digit character. -/
def charVal (c : Char) : Nat := c.toNat - 48

/-- Value of a digit string (most significant first). -/
def natOfDigits (cs : List Char) : Nat :=
  cs.foldl (fun acc c => 10 * acc + charVal c) 0

/-- `int(float(s))` for a non-empty string of digits and dots (the only
shape reaching it in `normalize_date`): `float` succeeds iff at most one
dot occurs, and truncation keeps the digits before the dot.  (Doubles
represent the in-range serial values exactly; for values beyond the
serial bound rounding never crosses the bound, so the truncated model is
observationally equal.) -/
def pyFloatTrunc (cs : List Char) : Option Nat :=
  if cs.count '.' ≤ 1 then some (natOfDigits (cs.takeWhile (· ≠ '.'))) else none

/-- Largest `n` with `pd.to_timedelta(n, unit="D")` representable in
nanoseconds (`n * 86400e9 ≤ 2^63 - 1`); `to_timedelta` raises
`OutOfBoundsTimedelta` above it. -/
def maxTimedeltaDays : Nat := 106751

/-- Case 1 of `normalize_date` (lines 100-106): if the text with dots
removed is all digits, read it as an Excel serial counted from
1899-12-30 and format the date; any failure inside the `try` (un-`float`able
text, timedelta overflow) falls through. -/
def serialCase (val_str : List Char) : Option String :=
  let nodots := val_str.filter (· ≠ '.')
  if nodots ≠ [] && nodots.all Char.isDigit then
    match pyFloatTrunc val_str with
    | some n =>
      if n ≤ maxTimedeltaDays then some (fmtTriple (addDays ⟨1899, 12, 30⟩ n)) else none
    | none => none
  else none

/-- First result of an option-producing function over a list (models
regex alternation with backtracking: candidates are tried in order and
the first full success wins). -/
def firstSome : List α → (α → Option β) → Option β
  | [], _ => none
  | a :: rest, f =>
    match f a with
    | some b => some b
    | none => firstSome rest f

/-- Consume one expected literal character. -/
def expectChar (c : Char) : List Char → Option (List Char)
  | x :: rest => if x = c then some rest else none
  | [] => none

/-- Field of at most two digits with value in `1..hi`, as matched by the
`strptime` regexes for `%d` (`(3[01]|[12]\d|0[1-9]|[1-9])`) and `%m`
(`(1[0-2]|0[1-9]|[1-9])`): the two-digit reading is tried before the
one-digit reading. -/
def parseNN (hi : Nat) : List Char → List (Nat × List Char)
  | c1 :: c2 :: rest =>
    (if c1.isDigit && c2.isDigit &&
        decide (1 ≤ 10 * charVal c1 + charVal c2) &&
        decide (10 * charVal c1 + charVal c2 ≤ hi) then
      [(10 * charVal c1 + charVal c2, rest)]
    else []) ++
    (if c1.isDigit && decide (1 ≤ charVal c1) && decide (charVal c1 ≤ 9) then
      [(charVal c1, c2 :: rest)]
    else [])
  | [c1] =>
    if c1.isDigit && decide (1 ≤ charVal c1) && decide (charVal c1 ≤ 9) then
      [(charVal c1, [])]
    else []
  | [] => []

/-- `%Y`: exactly four digits. -/
def parse4Y : List Char → Option (Nat × List Char)
  | c1 :: c2 :: c3 :: c4 :: rest =>
    if c1.isDigit && c2.isDigit && c3.isDigit && c4.isDigit then
      some (1000 * charVal c1 + 100 * charVal c2 + 10 * charVal c3 + charVal c4, rest)
    else none
  | _ => none

/-- `%y`: exactly two digits, with the 1969-2068 pivot of `strptime`. -/
def parse2y : List Char → Option (Nat × List Char)
  | c1 :: c2 :: rest =>
    if c1.isDigit && c2.isDigit then
      let v := 10 * charVal c1 + charVal c2
      some (if v ≤ 68 then 2000 + v else 1900 + v, rest)
    else none
  | _ => none

/-- Month abbreviations recognized by `%b` (C locale), compared
case-insensitively. -/
def monAbbrev : List (String × Nat) :=
  [("jan", 1), ("feb", 2), ("mar", 3), ("apr", 4), ("may", 5), ("jun", 6),
   ("jul", 7), ("aug", 8), ("sep", 9), ("oct", 10), ("nov", 11), ("dec", 12)]

/-- `%b`: a three-letter month abbreviation, case-insensitive. -/
def parseMon3 : List Char → Option (Nat × List Char)
  | c1 :: c2 :: c3 :: rest =>
    match monAbbrev.lookup (⟨[c1.toLower, c2.toLower, c3.toLower]⟩ : String) with
    | some m => some (m, rest)
    | none => none
  | _ => none

/-- Final validation of a parsed triple: `datetime` validity (strptime's
day-of-month check) and `Timestamp` bounds, as checked by
`pd.to_datetime(..., errors="raise")`. -/
def mkTS (y m d : Nat) : Option TS :=
  if h : (validDMY ⟨y, m, d⟩ && tsInRange ⟨y, m, d⟩) = true then some ⟨⟨y, m, d⟩, h⟩
  else none

/-- `pd.to_datetime(s, format="%d" sep "%m" sep "%Y", errors="raise")`. -/
def parseDMYnum (sep : Char) (cs : List Char) : Option TS :=
  firstSome (parseNN 31 cs) fun dc =>
    (expectChar sep dc.2).bind fun r1 =>
      firstSome (parseNN 12 r1) fun mc =>
        (expectChar sep mc.2).bind fun r2 =>
          (parse4Y r2).bind fun yc =>
            if yc.2 = [] then mkTS yc.1 mc.1 dc.1 else none

/-- `pd.to_datetime(s, format="%d-%b-%Y", errors="raise")`. -/
def parseDbY (cs : List Char) : Option TS :=
  firstSome (parseNN 31 cs) fun dc =>
    (expectChar '-' dc.2).bind fun r1 =>
      (parseMon3 r1).bind fun mc =>
        (expectChar '-' mc.2).bind fun r2 =>
          (parse4Y r2).bind fun yc =>
            if yc.2 = [] then mkTS yc.1 mc.1 dc.1 else none

/-- `pd.to_datetime(s, format="%d-%b-%y", errors="raise")`. -/
def parseDby (cs : List Char) : Option TS :=
  firstSome (parseNN 31 cs) fun dc =>
    (expectChar '-' dc.2).bind fun r1 =>
      (parseMon3 r1).bind fun mc =>
        (expectChar '-' mc.2).bind fun r2 =>
          (parse2y r2).bind fun yc =>
            if yc.2 = [] then mkTS yc.1 mc.1 dc.1 else none

/-- `pd.to_datetime(s, format="%Y" sep "%m" sep "%d", errors="raise")`. -/
def parseYMDnum (sep : Char) (cs : List Char) : Option TS :=
  (parse4Y cs).bind fun yc =>
    (expectChar sep yc.2).bind fun r1 =>
      firstSome (parseNN 12 r1) fun mc =>
        (expectChar sep mc.2).bind fun r2 =>
          firstSome (parseNN 31 r2) fun dc =>
            if dc.2 = [] then mkTS yc.1 mc.1 dc.1 else none

/-- Case 2 of `normalize_date` (lines 109-114): the explicit format list,
first success wins. -/
def tryFormats (cs : List Char) : Option TS :=
  match parseDMYnum '-' cs with
  | some t => some t
  | none =>
    match parseDMYnum '/' cs with
    | some t => some t
    | none =>
      match parseDbY cs with
      | some t => some t
      | none =>
        match parseDby cs with
        | some t => some t
        | none =>
          match parseYMDnum '-' cs with
          | some t => some t
          | none => parseYMDnum '/' cs

/-- `normalize_date` (src/Auto.py lines 94-120).  The permissive fallback
parse `pd.to_datetime(val_str, errors="coerce", dayfirst=True)` of Case 3
is over an open-ended natural-language grammar and is abstracted as the
parameter `fb`; its result is a `Timestamp` (`some`) or `NaT` (`none`,
whose `.strftime` raises, caught into `""`).  A `none` input is a `NaN`
cell (`pd.isna`).  The source's local
`val_str = str(val).strip().split(" ")[0]` is written out inline as
`(pyStrip v.data).takeWhile (· ≠ ' ')`. -/
def normalize_date (fb : String → Option TS) : Option String → String
  | none => ""
  | some v =>
    if pyStrip v.data = [] then ""
    else
      match serialCase ((pyStrip v.data).takeWhile (· ≠ ' ')) with
      | some r => r
      | none =>
        match tryFormats ((pyStrip v.data).takeWhile (· ≠ ' ')) with
        | some ts => fmtTriple ts.date
        | none =>
          match fb ⟨(pyStrip v.data).takeWhile (· ≠ ' ')⟩ with
          | some ts => fmtTriple ts.date
          | none => ""

/-- Exponent suffix of a float literal (`e`/`E`, optional sign, digits),
applied to an already-parsed mantissa. -/
def parseExpPart (cs : List Char) (base : ℚ) : Option ℚ :=
  let go : List Char → Int → Option ℚ := fun ds es =>
    if ds ≠ [] && ds.all Char.isDigit then
      some (base * (10 : ℚ) ^ (es * (natOfDigits ds : Int)))
    else none
  match cs with
  | [] => some base
  | 'e' :: '+' :: rest => go rest 1
  | 'e' :: '-' :: rest => go rest (-1)
  | 'e' :: rest => go rest 1
  | 'E' :: '+' :: rest => go rest 1
  | 'E' :: '-' :: rest => go rest (-1)
  | 'E' :: rest => go rest 1
  | _ => none

/-- Unsigned decimal float literal: digits, optional fraction, optional
exponent. -/
def parseUnsignedNum (cs : List Char) (sgn : ℚ) : Option ℚ :=
  let ip := cs.takeWhile Char.isDigit
  let rest := cs.dropWhile Char.isDigit
  match rest with
  | '.' :: rest2 =>
    let fp := rest2.takeWhile Char.isDigit
    let rest3 := rest2.dropWhile Char.isDigit
    if ip = [] && fp = [] then none
    else parseExpPart rest3 (sgn * ((natOfDigits ip : ℚ) + (natOfDigits fp : ℚ) / (10 : ℚ) ^ fp.length))
  | _ =>
    if ip = [] then none
    else parseExpPart rest (sgn * (natOfDigits ip : ℚ))

/-- `pd.to_numeric(x, errors='coerce')` on one cell of an object column of
strings: a missing cell stays missing, a string is parsed as a decimal
number (optional surrounding whitespace, sign, fraction, exponent) and
anything unparseable coerces to `NaN` (`none`).  Numbers are modelled as
exact rationals; the IEEE special spellings (`inf`) are outside the
rational model, and the spelling `nan` coerces to missing just as its
float would. -/
def pyToNumeric (c : SCell) : Option ℚ :=
  match c with
  | none => none
  | some s =>
    match pyStrip s.data with
    | '+' :: rest => parseUnsignedNum rest 1
    | '-' :: rest => parseUnsignedNum rest (-1)
    | rest => parseUnsignedNum rest 1

/-- The five canonical numeric fields (src/Auto.py line 87). -/
def numeric_cols : List String :=
  ["INVOICE VALUE", "TAXABLE VALUE", "INTEGRATED TAX", "CENTRAL TAX", "STATE/UT TAX"]

/-- A column after `preprocess_df`: numeric fields become float columns,
the date field a string column, everything else keeps its string cells. -/
inductive PCol
  | raw (cs : List SCell)
  | nums (qs : List ℚ)
  | dates (ds : List String)
  deriving DecidableEq

/-- Number of cells. -/
def PCol.len : PCol → Nat
  | .raw cs => cs.length
  | .nums qs => qs.length
  | .dates ds => ds.length

/-- A processed dataframe. -/
structure PFrame where
  nrows : Nat
  cols : List (String × PCol)
  deriving DecidableEq

/-- `df[name]` on a processed frame. -/
def PFrame.getPCol (f : PFrame) (name : String) : PCol :=
  ((f.cols.find? (·.1 = name)).map (·.2)).getD (PCol.raw [])

/-- `preprocess_df` (src/Auto.py lines 83-124): each of the five numeric
columns goes through `pd.to_numeric(..., errors='coerce').fillna(0)`;
the `INVOICE DATE` column through `normalize_date`; all other columns are
untouched.  (The `if col in df.columns` guards always hold on the mapped
frames this is applied to, which carry all 12 template columns.) -/
def preprocess_df (fb : String → Option TS) (f : Frame) : PFrame :=
  ⟨f.nrows, f.cols.map (fun p =>
    (p.1,
      if p.1 ∈ numeric_cols then
        PCol.nums (p.2.map (fun c => (pyToNumeric c).getD 0))
      else if p.1 = "INVOICE DATE" then
        PCol.dates (p.2.map (normalize_date fb))
      else PCol.raw p.2))⟩

/-- One sheet's pipeline inside the per-sheet loops (lines 149-151 and
162-164): map to the template, then preprocess. -/
def processSheet (fb : String → Option TS) (cmap : List (String × List String)) (df : Frame) : PFrame :=
  preprocess_df fb (map_columns df cmap)

/-- The loop accumulator's initial value
`pd.DataFrame(columns=template_columns)` (lines 147 and 160). -/
def emptyPTemplate : PFrame := ⟨0, template_columns.map (fun n => (n, PCol.raw []))⟩

/-- Append two processed columns of the same dtype.  Mixed dtypes cannot
meet: processed frames give each template column the same dtype, and the
untyped empty accumulator is handled before appending. -/
def PCol.append : PCol → PCol → PCol
  | .raw a, .raw b => .raw (a ++ b)
  | .nums a, .nums b => .nums (a ++ b)
  | .dates a, .dates b => .dates (a ++ b)
  | x, _ => x

/-- `pd.concat([a, b], ignore_index=True)` for frames with identical
column labels: rows of `a` then rows of `b`; concatenating from an empty
frame yields `b`'s rows and dtypes. -/
def concatF (a b : PFrame) : PFrame :=
  if a.nrows = 0 then b
  else ⟨a.nrows + b.nrows, a.cols.map (fun p => (p.1, p.2.append (b.getPCol p.1)))⟩

/-- The per-kind combination loop (`combined_books_df`, lines 147-152, and
`combined_gst_df`, lines 160-165): process each selected sheet in
selection order and concatenate. -/
def combinedOf (fb : String → Option TS) (cmap : List (String × List String))
    (sheets : List Frame) : PFrame :=
  sheets.foldl (fun acc df => concatF acc (processSheet fb cmap df)) emptyPTemplate

/-- What the app offers for download. `standalone` appears in the type
only so the specification's "offer it standalone" can be stated; the
code produces `zipArchive` or nothing. -/
inductive Output
  | nothing
  | zipArchive (files : List (String × PFrame))
  | standalone (name : String) (f : PFrame)
  deriving DecidableEq

/-- `books_file and not combined_books_df.empty`: an uploaded file whose
combined table has rows (a frame with the 12 template columns is `.empty`
iff it has no rows). -/
def nonemptyTable : Option PFrame → Bool
  | some f => decide (0 < f.nrows)
  | none => false

/-- The export block (src/Auto.py lines 167-191): when at least one
uploaded kind has a non-empty combined table, write each non-empty
combined table into the ZIP (books first) and offer the ZIP; otherwise
nothing is offered. -/
def exporter (books gst : Option PFrame) : Output :=
  if nonemptyTable books || nonemptyTable gst then
    Output.zipArchive
      ((match books with
        | some b => if 0 < b.nrows then [("Books_AutoFilled_Template.xlsx", b)] else []
        | none => []) ++
       (match gst with
        | some g => if 0 < g.nrows then [("GST_AutoFilled_Combined_Template.xlsx", g)] else []
        | none => []))
  else Output.nothing

/-- Content of an uploaded file: a spreadsheet workbook (named sheets) or
comma-separated text. -/
inductive FileContent
  | workbook (sheets : List (String × Frame))
  | commaSeparated (text : String)
  deriving DecidableEq

/-- An uploaded file: its extension and its content. -/
structure UploadFile where
  ext : String
  content : FileContent
  deriving DecidableEq

/-- `st.file_uploader(..., type=["xlsx","xls","csv"])` (lines 130-131)
accepts exactly these extensions. -/
def uploaderAccepts (f : UploadFile) : Bool :=
  ["xlsx", "xls", "csv"].contains f.ext

/-- `pd.ExcelFile(file)` (lines 143 and 156): detects a spreadsheet
engine from the content and raises `ValueError` for comma-separated
text, which is no spreadsheet format. -/
def pdExcelFile : FileContent → Except String (List (String × Frame))
  | .workbook sheets => .ok sheets
  | .commaSeparated _ =>
    .error "Excel file format cannot be determined, you must specify an engine manually."

/-- The read step of either branch (`books_xl = pd.ExcelFile(books_file)`
line 143, `gst_xl = pd.ExcelFile(gst_file)` line 156). -/
def readUpload (f : UploadFile) : Except String (List (String × Frame)) :=
  pdExcelFile f.content

/-- The template frame as it stands right after pandas adopts a series
index of length `k`: every template column reindexed to `k` missing
values. -/
def reindexed (k : Nat) : Frame :=
  ⟨k, template_columns.map (fun n => (n, List.replicate k none))⟩

/-- What `map_columns` delivers for one template column once the output
frame has `n` rows: the matched source column's cells, or an `n`-fold
empty-string fill when no alias matched. -/
def mappedColSpec (df : Frame) (n : Nat) (aliases : List String) : List SCell :=
  match firstMatch aliases df.names with
  | some orig => df.getCol orig
  | none => List.replicate n (some "")

/-- Whether some alias of the entry has a matching source column. -/
def entryMatched (df : Frame) (e : String × List String) : Bool :=
  (firstMatch e.2 df.names).isSome

/-- Column labels of a processed frame, in order. -/
def PFrame.names (f : PFrame) : List String := f.cols.map (·.1)

/-- Wellformedness of a processed frame: every column has `nrows`
cells. -/
def PFrame.wf (f : PFrame) : Prop := ∀ p ∈ f.cols, p.2.len = f.nrows

/-- The dtype tag of a processed column. -/
def PCol.kind : PCol → Nat
  | .raw _ => 0
  | .nums _ => 1
  | .dates _ => 2

/-- The dtype `preprocess_df` gives a column of this name. -/
def kindOf (name : String) : Nat :=
  if name ∈ numeric_cols then 1 else if name = "INVOICE DATE" then 2 else 0

/-- Each processed column carries the dtype its name dictates. -/
def PFrame.kinded (f : PFrame) : Prop := ∀ p ∈ f.cols, p.2.kind = kindOf p.1

/-- String cells of a processed column (empty for a numeric or date
column). -/
def PCol.rawCells : PCol → List SCell
  | .raw cs => cs
  | _ => []

/-- Numbers of a processed column (empty unless numeric). -/
def PCol.numCells : PCol → List ℚ
  | .nums qs => qs
  | _ => []

/-- Normalized date strings of a processed column (empty unless it is the
date column). -/
def PCol.dateCells : PCol → List String
  | .dates ds => ds
  | _ => []

/-- Proof-side calendar predicate: month and day are valid for the year,
with no upper year bound (iterating `nextDay` preserves it). -/
def validMD (t : D3) : Prop :=
  1 ≤ t.y ∧ 1 ≤ t.m ∧ t.m ≤ 12 ∧ 1 ≤ t.d ∧ t.d ≤ daysInMonth t.y t.m

/-- Days of the year before month `m` in a non-leap year. -/
def daysBeforeMonth (m : Nat) : Nat :=
  match m with
  | 1 => 0 | 2 => 31 | 3 => 59 | 4 => 90 | 5 => 120 | 6 => 151 | 7 => 181
  | 8 => 212 | 9 => 243 | 10 => 273 | 11 => 304 | 12 => 334
  | _ => 0

/-- Proof-side day count of a date (days since the proleptic epoch),
used to bound how far `addDays` can reach. -/
def rataDie (t : D3) : Nat :=
  365 * (t.y - 1) + (t.y - 1) / 4 - (t.y - 1) / 100 + (t.y - 1) / 400 +
    daysBeforeMonth t.m + (if 3 ≤ t.m ∧ isLeap t.y then 1 else 0) + t.d

/-!  Frame lemmas: how `setCol`, `setSeries` and the `map_columns` fold
move columns around. -/

theorem Frame.nrows_setCol (f : Frame) (n : String) (v : List SCell) :
    (f.setCol n v).nrows = f.nrows := rfl

theorem Frame.names_setCol (f : Frame) (n : String) (v : List SCell) :
    (f.setCol n v).names = f.names := by
  simp only [Frame.setCol, Frame.names, List.map_map]
  refine List.map_congr_left ?_
  intro p _
  by_cases h : p.1 = n <;> simp [h]

theorem find?_setcol_self (n : String) (v : List SCell) :
    ∀ (t : List (String × List SCell)), (∃ p ∈ t, p.1 = n) →
      (t.map (fun p => if p.1 = n then (p.1, v) else p)).find? (·.1 = n) = some (n, v) := by
  intro t
  induction t with
  | nil => simp
  | cons p t ih =>
    intro hex
    by_cases hp : p.1 = n
    · rw [List.map_cons, if_pos hp, List.find?_cons_of_pos _ (by simp [hp]), hp]
    · obtain ⟨q, hq, hq1⟩ := hex
      rcases List.mem_cons.mp hq with rfl | hqt
      · exact absurd hq1 hp
      · rw [List.map_cons, if_neg hp, List.find?_cons_of_neg _ (by simp [hp])]
        exact ih ⟨q, hqt, hq1⟩

theorem find?_setcol_ne (n m : String) (v : List SCell) (h : m ≠ n) :
    ∀ (t : List (String × List SCell)),
      (t.map (fun p => if p.1 = n then (p.1, v) else p)).find? (·.1 = m) =
        t.find? (·.1 = m) := by
  intro t
  induction t with
  | nil => rfl
  | cons p t ih =>
    by_cases hm : p.1 = m
    · have hp : ¬ p.1 = n := fun hh => absurd (hm.symm.trans hh) h
      rw [List.map_cons, if_neg hp, List.find?_cons_of_pos _ (by simp [hm]),
        List.find?_cons_of_pos _ (by simp [hm])]
    · by_cases hp : p.1 = n
      · rw [List.map_cons, if_pos hp, List.find?_cons_of_neg _ (by simp [hm]),
          List.find?_cons_of_neg _ (by simp [hm]), ih]
      · rw [List.map_cons, if_neg hp, List.find?_cons_of_neg _ (by simp [hm]),
          List.find?_cons_of_neg _ (by simp [hm]), ih]

theorem Frame.getCol_setCol_self (f : Frame) (n : String) (v : List SCell)
    (h : n ∈ f.names) : (f.setCol n v).getCol n = v := by
  simp only [Frame.names, List.mem_map] at h
  simp only [Frame.getCol, Frame.setCol]
  rw [find?_setcol_self n v f.cols h]
  rfl

theorem Frame.getCol_setCol_ne (f : Frame) (n m : String) (v : List SCell)
    (h : m ≠ n) : (f.setCol n v).getCol m = f.getCol m := by
  simp only [Frame.getCol, Frame.setCol]
  rw [find?_setcol_ne n m v h f.cols]

theorem find?_mapPair (l : List String) (g : String → List SCell) (n : String)
    (h : n ∈ l) : (l.map (fun s => (s, g s))).find? (·.1 = n) = some (n, g n) := by
  induction l with
  | nil => simp at h
  | cons s t ih =>
    by_cases hs : s = n
    · rw [List.map_cons, List.find?_cons_of_pos _ (by simp [hs]), hs]
    · rcases List.mem_cons.mp h with rfl | ht
      · exact absurd rfl hs
      · rw [List.map_cons, List.find?_cons_of_neg _ (by simp [hs])]
        exact ih ht

theorem Frame.getCol_mk_mapPair (k : Nat) (l : List String) (g : String → List SCell)
    (n : String) (h : n ∈ l) :
    Frame.getCol ⟨k, l.map (fun s => (s, g s))⟩ n = g n := by
  simp only [Frame.getCol]
  rw [find?_mapPair l g n h]
  rfl

theorem reindexed_names (k : Nat) : (reindexed k).names = template_columns := by
  simp [reindexed, Frame.names, List.map_map, Function.comp_def]

theorem reindexed_nrows (k : Nat) : (reindexed k).nrows = k := rfl

theorem reindexed_getCol (k : Nat) (n : String) (h : n ∈ template_columns) :
    (reindexed k).getCol n = List.replicate k none :=
  Frame.getCol_mk_mapPair k template_columns (fun _ => List.replicate k none) n h

theorem emptyTemplate_names : emptyTemplate.names = template_columns := by decide

theorem emptyTemplate_getCol (n : String) : emptyTemplate.getCol n = [] := by
  simp only [Frame.getCol]
  cases hf : emptyTemplate.cols.find? (·.1 = n) with
  | none => rfl
  | some q =>
    have hq := List.mem_of_find?_eq_some hf
    simp only [emptyTemplate, List.mem_map] at hq
    obtain ⟨s, _, rfl⟩ := hq
    rfl

theorem emptyTemplate_setCol_nil (n : String) : emptyTemplate.setCol n [] = emptyTemplate := by
  simp only [emptyTemplate, Frame.setCol]
  congr 1
  rw [List.map_map]
  refine List.map_congr_left ?_
  intro s _
  by_cases h : s = n <;> simp [h]

theorem emptyTemplate_setScalar (n s : String) :
    emptyTemplate.setScalar n s = emptyTemplate := by
  have h0 : emptyTemplate.nrows = 0 := rfl
  simp only [Frame.setScalar, h0, List.replicate]
  exact emptyTemplate_setCol_nil n

theorem Frame.setSeries_of_nrows_ne (f : Frame) (n : String) (vals : List SCell)
    (h : f.nrows ≠ 0) : f.setSeries n vals = f.setCol n vals := by
  unfold Frame.setSeries
  rw [if_neg]
  exact fun hc => h hc.1

theorem Frame.setSeries_nil (f : Frame) (n : String) :
    f.setSeries n [] = f.setCol n [] := by
  unfold Frame.setSeries
  rw [if_neg]
  simp

theorem firstMatch_mem (al names : List String) (orig : String)
    (h : firstMatch al names = some orig) : orig ∈ names := by
  induction al with
  | nil => simp [firstMatch] at h
  | cons a t ih =>
    unfold firstMatch at h
    cases hd : df_cols_clean names (clean_column_name a) with
    | some c =>
      rw [hd] at h
      simp only [Option.some.injEq] at h
      subst h
      unfold df_cols_clean at hd
      exact List.mem_reverse.mp (List.mem_of_find?_eq_some hd)
    | none =>
      rw [hd] at h
      exact ih h

theorem Frame.getCol_length_of_wf (f : Frame) (hwf : f.wf) (n : String)
    (h : n ∈ f.names) : (f.getCol n).length = f.nrows := by
  simp only [Frame.names, List.mem_map] at h
  obtain ⟨q, hq, rfl⟩ := h
  have hs : (f.cols.find? (·.1 = q.1)).isSome :=
    List.find?_isSome.mpr ⟨q, hq, by simp⟩
  obtain ⟨r, hr⟩ := Option.isSome_iff_exists.mp hs
  have hrmem := List.mem_of_find?_eq_some hr
  simp [Frame.getCol, hr, hwf r hrmem]

theorem Frame.getCol_of_nrows_zero (f : Frame) (hwf : f.wf) (h0 : f.nrows = 0)
    (n : String) : f.getCol n = [] := by
  cases hf : f.cols.find? (·.1 = n) with
  | none => simp [Frame.getCol, hf]
  | some q =>
    have hl := hwf q (List.mem_of_find?_eq_some hf)
    rw [h0] at hl
    simp [Frame.getCol, hf, List.length_eq_zero.mp hl]

theorem Frame.names_setSeries (f : Frame) (n : String) (vals : List SCell) :
    (f.setSeries n vals).names = f.names := by
  unfold Frame.setSeries
  split
  · rw [Frame.names_setCol]
    simp [Frame.names, List.map_map, Function.comp_def]
  · exact Frame.names_setCol f n vals

theorem mapStep_names (df acc : Frame) (e : String × List String) :
    (mapStep df acc e).names = acc.names := by
  cases hm : firstMatch e.2 df.names with
  | some orig =>
    simp only [mapStep, hm]
    exact Frame.names_setSeries acc e.1 (df.getCol orig)
  | none =>
    simp only [mapStep, hm]
    exact Frame.names_setCol acc e.1 _

theorem mapStep_nrows (df acc : Frame) (e : String × List String)
    (h : acc.nrows ≠ 0) : (mapStep df acc e).nrows = acc.nrows := by
  cases hm : firstMatch e.2 df.names with
  | some orig =>
    simp only [mapStep, hm]
    rw [Frame.setSeries_of_nrows_ne acc e.1 _ h]
    rfl
  | none => simp only [mapStep, hm]; rfl

theorem mapStep_getCol_self (df acc : Frame) (e : String × List String)
    (h : acc.nrows ≠ 0) (hmem : e.1 ∈ acc.names) :
    (mapStep df acc e).getCol e.1 = mappedColSpec df acc.nrows e.2 := by
  cases hm : firstMatch e.2 df.names with
  | some orig =>
    simp only [mapStep, mappedColSpec, hm]
    rw [Frame.setSeries_of_nrows_ne acc e.1 _ h]
    exact Frame.getCol_setCol_self acc e.1 _ hmem
  | none =>
    simp only [mapStep, mappedColSpec, hm]
    exact Frame.getCol_setCol_self acc e.1 _ hmem

theorem mapStep_getCol_ne (df acc : Frame) (e : String × List String) (m : String)
    (hne : m ≠ e.1) (h : acc.nrows ≠ 0) :
    (mapStep df acc e).getCol m = acc.getCol m := by
  cases hm : firstMatch e.2 df.names with
  | some orig =>
    simp only [mapStep, hm]
    rw [Frame.setSeries_of_nrows_ne acc e.1 _ h]
    exact Frame.getCol_setCol_ne acc e.1 m _ hne
  | none =>
    simp only [mapStep, hm]
    exact Frame.getCol_setCol_ne acc e.1 m _ hne

theorem foldC (df : Frame) (l : List (String × List String)) :
    ∀ acc : Frame, (l.map (·.1)).Nodup → (∀ e ∈ l, e.1 ∈ acc.names) → acc.nrows ≠ 0 →
      ((l.foldl (mapStep df) acc).nrows = acc.nrows ∧
       (l.foldl (mapStep df) acc).names = acc.names ∧
       (∀ n, n ∉ l.map (·.1) → (l.foldl (mapStep df) acc).getCol n = acc.getCol n) ∧
       (∀ e ∈ l, (l.foldl (mapStep df) acc).getCol e.1 = mappedColSpec df acc.nrows e.2)) := by
  induction l with
  | nil =>
    intro acc _ _ _
    exact ⟨rfl, rfl, fun n _ => rfl, fun e he => absurd he (List.not_mem_nil e)⟩
  | cons e t ih =>
    intro acc hnd hmem hn
    simp only [List.map_cons, List.nodup_cons] at hnd
    have hmemE : e.1 ∈ acc.names := hmem e (List.mem_cons_self e t)
    have hn' : (mapStep df acc e).nrows = acc.nrows := mapStep_nrows df acc e hn
    have hnames' : (mapStep df acc e).names = acc.names := mapStep_names df acc e
    obtain ⟨ihn, ihnames, ihother, ihself⟩ :=
      ih (mapStep df acc e) hnd.2
        (fun e' he' => hnames' ▸ hmem e' (List.mem_cons_of_mem e he'))
        (by rw [hn']; exact hn)
    refine ⟨?_, ?_, ?_, ?_⟩
    · rw [List.foldl_cons, ihn, hn']
    · rw [List.foldl_cons, ihnames, hnames']
    · intro n hnin
      simp only [List.map_cons, List.mem_cons, not_or] at hnin
      rw [List.foldl_cons, ihother n hnin.2, mapStep_getCol_ne df acc e n hnin.1 hn]
    · intro e' he'
      rcases List.mem_cons.mp he' with rfl | ht
      · rw [List.foldl_cons, ihother e'.1 hnd.1,
          mapStep_getCol_self df acc e' hn hmemE]
      · rw [List.foldl_cons, ihself e' ht, hn']

theorem mapStep_emptyTemplate_nomatch (df : Frame) (e : String × List String)
    (hm : firstMatch e.2 df.names = none) :
    mapStep df emptyTemplate e = emptyTemplate := by
  simp only [mapStep, hm]
  exact emptyTemplate_setScalar e.1 ""

theorem mapStep_emptyTemplate_some_nil (df : Frame) (e : String × List String)
    (orig : String) (hm : firstMatch e.2 df.names = some orig)
    (hv : df.getCol orig = []) :
    mapStep df emptyTemplate e = emptyTemplate := by
  simp only [mapStep, hm, hv]
  rw [Frame.setSeries_nil]
  exact emptyTemplate_setCol_nil e.1

theorem mapStep_emptyTemplate_some (df : Frame) (e : String × List String)
    (orig : String) (hm : firstMatch e.2 df.names = some orig)
    (hv : df.getCol orig ≠ []) :
    mapStep df emptyTemplate e =
      (reindexed (df.getCol orig).length).setCol e.1 (df.getCol orig) := by
  simp only [mapStep, hm]
  unfold Frame.setSeries
  rw [if_pos ⟨rfl, hv⟩]
  rfl

theorem fold_empty_df (df : Frame) (hwf : df.wf) (h0 : df.nrows = 0)
    (l : List (String × List String)) :
    l.foldl (mapStep df) emptyTemplate = emptyTemplate := by
  induction l with
  | nil => rfl
  | cons e t ih =>
    rw [List.foldl_cons]
    have hstep : mapStep df emptyTemplate e = emptyTemplate := by
      cases hm : firstMatch e.2 df.names with
      | none => exact mapStep_emptyTemplate_nomatch df e hm
      | some orig =>
        exact mapStep_emptyTemplate_some_nil df e orig hm
          (df.getCol_of_nrows_zero hwf h0 orig)
    rw [hstep, ih]

theorem foldPost (df : Frame) (hwf : df.wf) (hn : df.nrows ≠ 0) :
    ∀ (l : List (String × List String)) (tc : String), tc ∈ template_columns →
      tc ∉ l.map (·.1) → (l.map (·.1)).Nodup → (∀ e ∈ l, e.1 ∈ template_columns) →
      (l.foldl (mapStep df) emptyTemplate).getCol tc =
        if l.any (entryMatched df) then List.replicate df.nrows none else [] := by
  intro l
  induction l with
  | nil => intro tc _ _ _ _; simp [emptyTemplate_getCol]
  | cons e t ih =>
    intro tc htc hnotin hnd hmem
    simp only [List.map_cons, List.mem_cons, not_or] at hnotin
    simp only [List.map_cons, List.nodup_cons] at hnd
    cases hm : firstMatch e.2 df.names with
    | none =>
      rw [List.foldl_cons, mapStep_emptyTemplate_nomatch df e hm,
        ih tc htc hnotin.2 hnd.2 (fun e' he' => hmem e' (List.mem_cons_of_mem e he'))]
      simp only [List.any_cons, entryMatched, hm, Option.isSome_none, Bool.false_or]
    | some orig =>
      have hlen : (df.getCol orig).length = df.nrows :=
        df.getCol_length_of_wf hwf orig (firstMatch_mem _ _ _ hm)
      have hvne : df.getCol orig ≠ [] := by
        intro hc
        rw [hc] at hlen
        exact hn hlen.symm
      rw [List.foldl_cons, mapStep_emptyTemplate_some df e orig hm hvne]
      have hGnames : ((reindexed (df.getCol orig).length).setCol e.1 (df.getCol orig)).names
          = template_columns := by
        rw [Frame.names_setCol, reindexed_names]
      have hGn : ((reindexed (df.getCol orig).length).setCol e.1 (df.getCol orig)).nrows
          = df.nrows := by
        rw [Frame.nrows_setCol, reindexed_nrows, hlen]
      obtain ⟨-, -, hother, -⟩ :=
        foldC df t ((reindexed (df.getCol orig).length).setCol e.1 (df.getCol orig))
          hnd.2 (fun e' he' => hGnames ▸ hmem e' (List.mem_cons_of_mem e he'))
          (by rw [hGn]; exact hn)
      rw [hother tc hnotin.2, Frame.getCol_setCol_ne _ _ _ _ hnotin.1,
        reindexed_getCol _ tc htc, hlen]
      simp [List.any_cons, entryMatched, hm]

theorem fold_names (df : Frame) (l : List (String × List String)) :
    ∀ acc : Frame, (l.foldl (mapStep df) acc).names = acc.names := by
  induction l with
  | nil => intro acc; rfl
  | cons e t ih => intro acc; rw [List.foldl_cons, ih, mapStep_names]

theorem map_columns_names (df : Frame) (cmap : List (String × List String)) :
    (map_columns df cmap).names = template_columns := by
  rw [map_columns, fold_names]
  exact emptyTemplate_names

theorem foldRows (df : Frame) (hwf : df.wf) (hn : df.nrows ≠ 0) :
    ∀ (l : List (String × List String)), (l.map (·.1)).Nodup →
      (∀ e ∈ l, e.1 ∈ template_columns) →
      (l.foldl (mapStep df) emptyTemplate).nrows =
        if l.any (entryMatched df) then df.nrows else 0 := by
  intro l
  induction l with
  | nil => intro _ _; simp; rfl
  | cons e t ih =>
    intro hnd hmem
    simp only [List.map_cons, List.nodup_cons] at hnd
    cases hm : firstMatch e.2 df.names with
    | none =>
      rw [List.foldl_cons, mapStep_emptyTemplate_nomatch df e hm,
        ih hnd.2 (fun e' he' => hmem e' (List.mem_cons_of_mem e he'))]
      simp only [List.any_cons, entryMatched, hm, Option.isSome_none, Bool.false_or]
    | some orig =>
      have hlen : (df.getCol orig).length = df.nrows :=
        df.getCol_length_of_wf hwf orig (firstMatch_mem _ _ _ hm)
      have hvne : df.getCol orig ≠ [] := by
        intro hc
        rw [hc] at hlen
        exact hn hlen.symm
      rw [List.foldl_cons, mapStep_emptyTemplate_some df e orig hm hvne]
      have hGnames : ((reindexed (df.getCol orig).length).setCol e.1 (df.getCol orig)).names
          = template_columns := by
        rw [Frame.names_setCol, reindexed_names]
      have hGn : ((reindexed (df.getCol orig).length).setCol e.1 (df.getCol orig)).nrows
          = df.nrows := by
        rw [Frame.nrows_setCol, reindexed_nrows, hlen]
      obtain ⟨hnr, -, -, -⟩ :=
        foldC df t ((reindexed (df.getCol orig).length).setCol e.1 (df.getCol orig))
          hnd.2 (fun e' he' => hGnames ▸ hmem e' (List.mem_cons_of_mem e he'))
          (by rw [hGn]; exact hn)
      rw [hnr, hGn]
      simp [List.any_cons, entryMatched, hm]

theorem unmatched_aux (df : Frame) (hwf : df.wf) (hn : df.nrows ≠ 0) :
    ∀ (l1 : List (String × List String)) (tc : String) (al : List String)
      (l2 : List (String × List String)),
      (((l1 ++ (tc, al) :: l2).map (·.1)).Nodup) →
      (∀ e ∈ l1 ++ (tc, al) :: l2, e.1 ∈ template_columns) →
      firstMatch al df.names = none →
      ((l1 ++ (tc, al) :: l2).foldl (mapStep df) emptyTemplate).getCol tc =
        if l1.any (entryMatched df) then List.replicate df.nrows (some "")
        else if l2.any (entryMatched df) then List.replicate df.nrows none
        else [] := by
  intro l1
  induction l1 with
  | nil =>
    intro tc al l2 hnd hmem hm
    simp only [List.nil_append, List.foldl_cons, List.any_nil, Bool.false_eq_true, if_false]
    rw [mapStep_emptyTemplate_nomatch df (tc, al) hm]
    simp only [List.nil_append, List.map_cons, List.nodup_cons] at hnd
    rw [foldPost df hwf hn l2 tc (hmem (tc, al) (List.mem_cons_self _ _)) hnd.1 hnd.2
      (fun e he => hmem e (List.mem_cons_of_mem _ he))]
  | cons e l1 ih =>
    intro tc al l2 hnd hmem hm
    simp only [List.cons_append, List.foldl_cons]
    simp only [List.cons_append, List.map_cons, List.nodup_cons] at hnd
    cases hme : firstMatch e.2 df.names with
    | none =>
      rw [mapStep_emptyTemplate_nomatch df e hme,
        ih tc al l2 hnd.2 (fun e' he' => hmem e' (List.mem_cons_of_mem e he')) hm]
      simp only [List.any_cons, entryMatched, hme, Option.isSome_none, Bool.false_or]
    | some orig =>
      have hlen : (df.getCol orig).length = df.nrows :=
        df.getCol_length_of_wf hwf orig (firstMatch_mem _ _ _ hme)
      have hvne : df.getCol orig ≠ [] := by
        intro hc
        rw [hc] at hlen
        exact hn hlen.symm
      rw [mapStep_emptyTemplate_some df e orig hme hvne]
      have hGnames : ((reindexed (df.getCol orig).length).setCol e.1 (df.getCol orig)).names
          = template_columns := by
        rw [Frame.names_setCol, reindexed_names]
      have hGn : ((reindexed (df.getCol orig).length).setCol e.1 (df.getCol orig)).nrows
          = df.nrows := by
        rw [Frame.nrows_setCol, reindexed_nrows, hlen]
      obtain ⟨-, -, -, hself⟩ :=
        foldC df (l1 ++ (tc, al) :: l2)
          ((reindexed (df.getCol orig).length).setCol e.1 (df.getCol orig))
          hnd.2 (fun e' he' => hGnames ▸ hmem e' (List.mem_cons_of_mem e he'))
          (by rw [hGn]; exact hn)
      have htcmem : (tc, al) ∈ l1 ++ (tc, al) :: l2 :=
        List.mem_append_right l1 (List.mem_cons_self _ _)
      rw [hself (tc, al) htcmem]
      simp only [mappedColSpec, hm, hGn]
      simp [List.any_cons, entryMatched, hme]

theorem matched_aux (df : Frame) (hwf : df.wf) :
    ∀ (l1 : List (String × List String)) (tc : String) (al : List String)
      (orig : String) (l2 : List (String × List String)),
      (((l1 ++ (tc, al) :: l2).map (·.1)).Nodup) →
      (∀ e ∈ l1 ++ (tc, al) :: l2, e.1 ∈ template_columns) →
      firstMatch al df.names = some orig →
      ((l1 ++ (tc, al) :: l2).foldl (mapStep df) emptyTemplate).getCol tc =
        df.getCol orig := by
  intro l1
  induction l1 with
  | nil =>
    intro tc al orig l2 hnd hmem hm
    simp only [List.nil_append, List.foldl_cons]
    simp only [List.nil_append, List.map_cons, List.nodup_cons] at hnd
    by_cases hv : df.getCol orig = []
    · have h0 : df.nrows = 0 := by
        have hl := df.getCol_length_of_wf hwf orig (firstMatch_mem _ _ _ hm)
        rw [hv] at hl
        exact hl.symm
      rw [mapStep_emptyTemplate_some_nil df (tc, al) orig hm hv,
        fold_empty_df df hwf h0, emptyTemplate_getCol, hv]
    · have h0 : df.nrows ≠ 0 := by
        intro hz
        exact hv (df.getCol_of_nrows_zero hwf hz orig)
      rw [mapStep_emptyTemplate_some df (tc, al) orig hm hv]
      have hGnames : ((reindexed (df.getCol orig).length).setCol tc (df.getCol orig)).names
          = template_columns := by
        rw [Frame.names_setCol, reindexed_names]
      obtain ⟨-, -, hother, -⟩ :=
        foldC df l2 ((reindexed (df.getCol orig).length).setCol tc (df.getCol orig))
          hnd.2 (fun e' he' => hGnames ▸ hmem e' (List.mem_cons_of_mem _ he'))
          (by rw [Frame.nrows_setCol, reindexed_nrows]
              exact fun hz => hv (List.length_eq_zero.mp hz))
      rw [hother tc hnd.1]
      exact Frame.getCol_setCol_self _ tc _
        (by rw [reindexed_names]; exact hmem (tc, al) (List.mem_cons_self _ _))
  | cons e l1 ih =>
    intro tc al orig l2 hnd hmem hm
    simp only [List.cons_append, List.foldl_cons]
    simp only [List.cons_append, List.map_cons, List.nodup_cons] at hnd
    cases hme : firstMatch e.2 df.names with
    | none =>
      rw [mapStep_emptyTemplate_nomatch df e hme]
      exact ih tc al orig l2 hnd.2 (fun e' he' => hmem e' (List.mem_cons_of_mem e he')) hm
    | some orig2 =>
      by_cases hv : df.getCol orig2 = []
      · have h0 : df.nrows = 0 := by
          have hl := df.getCol_length_of_wf hwf orig2 (firstMatch_mem _ _ _ hme)
          rw [hv] at hl
          exact hl.symm
        rw [mapStep_emptyTemplate_some_nil df e orig2 hme hv,
          fold_empty_df df hwf h0, emptyTemplate_getCol,
          df.getCol_of_nrows_zero hwf h0 orig]
      · have h0 : df.nrows ≠ 0 := by
          intro hz
          exact hv (df.getCol_of_nrows_zero hwf hz orig2)
        rw [mapStep_emptyTemplate_some df e orig2 hme hv]
        have hGnames : ((reindexed (df.getCol orig2).length).setCol e.1 (df.getCol orig2)).names
            = template_columns := by
          rw [Frame.names_setCol, reindexed_names]
        obtain ⟨-, -, -, hself⟩ :=
          foldC df (l1 ++ (tc, al) :: l2)
            ((reindexed (df.getCol orig2).length).setCol e.1 (df.getCol orig2))
            hnd.2 (fun e' he' => hGnames ▸ hmem e' (List.mem_cons_of_mem e he'))
            (by rw [Frame.nrows_setCol, reindexed_nrows]
                exact fun hz => hv (List.length_eq_zero.mp hz))
        have htcmem : (tc, al) ∈ l1 ++ (tc, al) :: l2 :=
          List.mem_append_right l1 (List.mem_cons_self _ _)
        rw [hself (tc, al) htcmem]
        simp only [mappedColSpec, hm]

theorem find?_clean_unique :
    ∀ (l : List String) (c key : String), (l.map clean_column_name).Nodup →
      c ∈ l → clean_column_name c = key →
      l.find? (fun n => clean_column_name n = key) = some c := by
  intro l
  induction l with
  | nil => intro c key _ hc _; simp at hc
  | cons a t ih =>
    intro c key hnd hc hkey
    simp only [List.map_cons, List.nodup_cons] at hnd
    by_cases ha : clean_column_name a = key
    · rw [List.find?_cons_of_pos _ (by simp [ha])]
      rcases List.mem_cons.mp hc with rfl | ht
      · rfl
      · exact absurd (ha.trans hkey.symm ▸ List.mem_map_of_mem clean_column_name ht) hnd.1
    · rw [List.find?_cons_of_neg _ (by simp [ha])]
      rcases List.mem_cons.mp hc with rfl | ht
      · exact absurd hkey ha
      · exact ih c key hnd.2 ht hkey

theorem df_cols_clean_unique (names : List String) (c key : String)
    (hnd : (names.map clean_column_name).Nodup) (hc : c ∈ names)
    (hk : clean_column_name c = key) : df_cols_clean names key = some c := by
  unfold df_cols_clean
  refine find?_clean_unique names.reverse c key ?_ (List.mem_reverse.mpr hc) hk
  rw [List.map_reverse]
  exact List.nodup_reverse.mpr hnd

theorem df_cols_clean_none (names : List String) (key : String)
    (h : ∀ n ∈ names, clean_column_name n ≠ key) : df_cols_clean names key = none := by
  unfold df_cols_clean
  rw [List.find?_eq_none]
  intro x hx
  simp [h x (List.mem_reverse.mp hx)]

theorem firstMatch_decomp (names : List String) :
    ∀ (pre : List String) (a : String) (post : List String) (c : String),
      (∀ x ∈ pre, ∀ n ∈ names, clean_column_name n ≠ clean_column_name x) →
      df_cols_clean names (clean_column_name a) = some c →
      firstMatch (pre ++ a :: post) names = some c := by
  intro pre
  induction pre with
  | nil =>
    intro a post c _ hd
    simp only [List.nil_append, firstMatch, hd]
  | cons x pre ih =>
    intro a post c hpre hd
    simp only [List.cons_append, firstMatch,
      df_cols_clean_none names (clean_column_name x)
        (fun n hn => hpre x (List.mem_cons_self x pre) n hn)]
    exact ih a post c (fun y hy n hn => hpre y (List.mem_cons_of_mem x hy) n hn) hd

/-- Claim C2 (amended): the Mapped Table has exactly the Source Table's
row count whenever at least one canonical field finds a matching source
column; when the Source Table has rows but NO canonical field matches
any of its columns, the Mapped Table instead has 0 rows (every column is
assigned on an empty index and the frame never acquires rows). -/
theorem claimC2 (df : Frame) (hwf : df.wf) (cmap : List (String × List String))
    (hk : cmap.map (·.1) = template_columns) :
    (map_columns df cmap).nrows =
      if cmap.any (entryMatched df) then df.nrows else 0 := by
  by_cases h0 : df.nrows = 0
  · rw [map_columns, fold_empty_df df hwf h0]
    have he : emptyTemplate.nrows = 0 := rfl
    rw [he, h0]
    simp
  · have hnd : (cmap.map (·.1)).Nodup := by
      rw [hk]
      decide
    have hmem : ∀ e ∈ cmap, e.1 ∈ template_columns := by
      intro e he
      rw [← hk]
      exact List.mem_map_of_mem _ he
    rw [map_columns]
    exact foldRows df hwf h0 cmap hnd hmem

/-- Claim C2, counterexample to the claim as stated: a one-row Source
Table none of whose columns matches any canonical field yields a 0-row
Mapped Table, not a 1-row one. -/
theorem claimC2_counterexample :
    (⟨1, [("ZZZ Column", [some "x"])]⟩ : Frame).wf ∧
    (⟨1, [("ZZZ Column", [some "x"])]⟩ : Frame).nrows = 1 ∧
    (map_columns ⟨1, [("ZZZ Column", [some "x"])]⟩ books_column_map).nrows = 0 := by
  decide

/-- Claim C2, witness: on a one-row Source Table with a matching column
("Customer Name"), the amended row-count law evaluates to row count 1. -/
theorem claimC2_witness :
    (map_columns ⟨1, [("Customer Name", [some "Acme"])]⟩ books_column_map).nrows =
      (if books_column_map.any (entryMatched ⟨1, [("Customer Name", [some "Acme"])]⟩)
        then 1 else 0) ∧
    (books_column_map.any (entryMatched ⟨1, [("Customer Name", [some "Acme"])]⟩)) = true :=
  ⟨claimC2 ⟨1, [("Customer Name", [some "Acme"])]⟩ (by decide) books_column_map (by decide),
   by decide⟩

/-- Claim C1 (amended): the Mapped Table always carries exactly the 12
canonical columns; a canonical field whose aliases all fail to match is
filled with empty strings for every row when some canonical field EARLIER
in schema order matched a source column, but with missing values (`NaN`)
when the first matched field comes only later (pandas reindexes the
already-assigned empty columns), and with nothing at all (0 rows) when no
field matches. -/
theorem claimC1 :
    (∀ (df : Frame) (cmap : List (String × List String)),
      (map_columns df cmap).names = template_columns) ∧
    (∀ (df : Frame), df.wf →
      ∀ (l1 : List (String × List String)) (tc : String) (al : List String)
        (l2 : List (String × List String)),
        (l1 ++ (tc, al) :: l2).map (·.1) = template_columns →
        firstMatch al df.names = none →
        (map_columns df (l1 ++ (tc, al) :: l2)).getCol tc =
          if l1.any (entryMatched df) then List.replicate df.nrows (some "")
          else if l2.any (entryMatched df) then List.replicate df.nrows none
          else []) := by
  constructor
  · exact map_columns_names
  · intro df hwf l1 tc al l2 hk hm
    by_cases h0 : df.nrows = 0
    · rw [map_columns, fold_empty_df df hwf h0, emptyTemplate_getCol, h0]
      simp
    · have hnd : ((l1 ++ (tc, al) :: l2).map (·.1)).Nodup := by
        rw [hk]
        decide
      have hmem : ∀ e ∈ l1 ++ (tc, al) :: l2, e.1 ∈ template_columns := by
        intro e he
        rw [← hk]
        exact List.mem_map_of_mem _ he
      rw [map_columns]
      exact unmatched_aux df hwf h0 l1 tc al l2 hnd hmem hm

/-- Claim C1, counterexample to the claim as stated: in a one-row Source
Table whose only column is "Customer Name", no alias of the canonical
field "GSTIN/UIN OF RECIPIENT" matches any source column, yet the mapped
GSTIN column is `[NaN]`, not a one-row empty-string fill. -/
theorem claimC1_counterexample :
    ("GSTIN/UIN OF RECIPIENT",
      ["Original Customer Billing GSTIN", "Customer GSTIN", "GSTIN",
       "Customer Billing GSTIN"]) ∈ books_column_map ∧
    (∀ a ∈ ["Original Customer Billing GSTIN", "Customer GSTIN", "GSTIN",
        "Customer Billing GSTIN"],
      ∀ n ∈ (Frame.names ⟨1, [("Customer Name", [some "Acme"])]⟩),
        clean_column_name n ≠ clean_column_name a) ∧
    (map_columns ⟨1, [("Customer Name", [some "Acme"])]⟩ books_column_map).getCol
      "GSTIN/UIN OF RECIPIENT" = [none] ∧
    ([none] : List SCell) ≠ List.replicate 1 (some "") := by
  decide

/-- Claim C1, witness: for the same one-row table, the canonical field
"INVOICE NO" (unmatched, but after the matched "RECEIVER NAME") comes out
as a one-row empty-string fill, as the amended claim states. -/
theorem claimC1_witness :
    (map_columns ⟨1, [("Customer Name", [some "Acme"])]⟩
        ([("GSTIN/UIN OF RECIPIENT", ["Original Customer Billing GSTIN", "Customer GSTIN", "GSTIN", "Customer Billing GSTIN"]),
          ("RECEIVER NAME", ["Customer Name", "Receiver Name", "Billed To Name", "Customer Billing Name"])] ++
          ("INVOICE NO", ["Original Invoice Number (In case of amendment)", "Invoice Number", "Bill No", "Voucher Number of Linked Advance Receipt", "Document Number"]) ::
          [("INVOICE DATE", ["Original Invoice Date (In case of amendment)", "Invoice Date", "Bill Date", "Date of Linked Advance Receipt", "Document Date"]),
           ("INVOICE VALUE", ["Invoice Value", "Total Amount", "Invoice Amt"]),
           ("PLACE OF SUPPLY", ["Place of Supply", "State", "State Place of Supply"]),
           ("INVOICE TYPE", ["Type of Export"]),
           ("TAXABLE VALUE", ["Item Taxable Value", "Taxable Amount"]),
           ("INTEGRATED TAX", ["IGST Amount", "Integrated Tax", "IGST Rate"]),
           ("CENTRAL TAX", ["CGST Amount", "Central Tax", "CGST Rate"]),
           ("STATE/UT TAX", ["SGST Amount", "State/UT Tax", "SGST Rate"]),
           ("IRN NUMBER", ["IRN Number", "IRN"])])).getCol "INVOICE NO" =
      (if ([("GSTIN/UIN OF RECIPIENT", ["Original Customer Billing GSTIN", "Customer GSTIN", "GSTIN", "Customer Billing GSTIN"]),
           ("RECEIVER NAME", ["Customer Name", "Receiver Name", "Billed To Name", "Customer Billing Name"])].any
            (entryMatched ⟨1, [("Customer Name", [some "Acme"])]⟩))
        then List.replicate 1 (some "")
        else if ([("INVOICE DATE", ["Original Invoice Date (In case of amendment)", "Invoice Date", "Bill Date", "Date of Linked Advance Receipt", "Document Date"]),
           ("INVOICE VALUE", ["Invoice Value", "Total Amount", "Invoice Amt"]),
           ("PLACE OF SUPPLY", ["Place of Supply", "State", "State Place of Supply"]),
           ("INVOICE TYPE", ["Type of Export"]),
           ("TAXABLE VALUE", ["Item Taxable Value", "Taxable Amount"]),
           ("INTEGRATED TAX", ["IGST Amount", "Integrated Tax", "IGST Rate"]),
           ("CENTRAL TAX", ["CGST Amount", "Central Tax", "CGST Rate"]),
           ("STATE/UT TAX", ["SGST Amount", "State/UT Tax", "SGST Rate"]),
           ("IRN NUMBER", ["IRN Number", "IRN"])].any
            (entryMatched ⟨1, [("Customer Name", [some "Acme"])]⟩))
        then List.replicate 1 none else []) ∧
    List.replicate 1 (some ("" : String)) = [some ""] :=
  ⟨claimC1.2 ⟨1, [("Customer Name", [some "Acme"])]⟩ (by decide) _ "INVOICE NO" _ _
      (by decide) (by decide),
   by decide⟩

/-- Claim C3: when the Source Table contains a column `c` whose cleaned
name equals the cleaned name of alias `a` of canonical field `tc`, where
every alias before `a` in the field's alias list matches no source
column (so `a` is the earliest matching alias) and cleaned source names
are unique (making "the matching column" well defined), `map_columns`
fills output column `tc` with the cells of `c`, copied verbatim. -/
theorem claimC3 (df : Frame) (hwf : df.wf)
    (hclean : (df.names.map clean_column_name).Nodup)
    (l1 l2 : List (String × List String)) (tc : String)
    (pre post : List String) (a c : String)
    (hk : (l1 ++ (tc, pre ++ a :: post) :: l2).map (·.1) = template_columns)
    (hpre : ∀ x ∈ pre, ∀ n ∈ df.names, clean_column_name n ≠ clean_column_name x)
    (hc : c ∈ df.names) (hca : clean_column_name c = clean_column_name a) :
    (map_columns df (l1 ++ (tc, pre ++ a :: post) :: l2)).getCol tc = df.getCol c := by
  have hd : df_cols_clean df.names (clean_column_name a) = some c :=
    df_cols_clean_unique df.names c _ hclean hc hca
  have hm : firstMatch (pre ++ a :: post) df.names = some c :=
    firstMatch_decomp df.names pre a post c hpre hd
  have hnd : ((l1 ++ (tc, pre ++ a :: post) :: l2).map (·.1)).Nodup := by
    rw [hk]
    decide
  have hmem : ∀ e ∈ l1 ++ (tc, pre ++ a :: post) :: l2, e.1 ∈ template_columns := by
    intro e he
    rw [← hk]
    exact List.mem_map_of_mem _ he
  rw [map_columns]
  exact matched_aux df hwf l1 tc _ c l2 hnd hmem hm

/-- Claim C3, witness: a table carrying both "Receiver Name" and
"Customer Name" columns maps "RECEIVER NAME" from "Customer Name" (the
earliest alias in the books alias list), verbatim. -/
theorem claimC3_witness :
    (map_columns ⟨1, [("Receiver Name", [some "R"]), ("Customer Name", [some "C"])]⟩
        ([("GSTIN/UIN OF RECIPIENT", ["Original Customer Billing GSTIN", "Customer GSTIN", "GSTIN", "Customer Billing GSTIN"])] ++
          ("RECEIVER NAME", [] ++ "Customer Name" :: ["Receiver Name", "Billed To Name", "Customer Billing Name"]) ::
          [("INVOICE NO", ["Original Invoice Number (In case of amendment)", "Invoice Number", "Bill No", "Voucher Number of Linked Advance Receipt", "Document Number"]),
           ("INVOICE DATE", ["Original Invoice Date (In case of amendment)", "Invoice Date", "Bill Date", "Date of Linked Advance Receipt", "Document Date"]),
           ("INVOICE VALUE", ["Invoice Value", "Total Amount", "Invoice Amt"]),
           ("PLACE OF SUPPLY", ["Place of Supply", "State", "State Place of Supply"]),
           ("INVOICE TYPE", ["Type of Export"]),
           ("TAXABLE VALUE", ["Item Taxable Value", "Taxable Amount"]),
           ("INTEGRATED TAX", ["IGST Amount", "Integrated Tax", "IGST Rate"]),
           ("CENTRAL TAX", ["CGST Amount", "Central Tax", "CGST Rate"]),
           ("STATE/UT TAX", ["SGST Amount", "State/UT Tax", "SGST Rate"]),
           ("IRN NUMBER", ["IRN Number", "IRN"])])).getCol "RECEIVER NAME" =
      Frame.getCol ⟨1, [("Receiver Name", [some "R"]), ("Customer Name", [some "C"])]⟩
        "Customer Name" ∧
    Frame.getCol ⟨1, [("Receiver Name", [some "R"]), ("Customer Name", [some "C"])]⟩
      "Customer Name" = [some "C"] :=
  ⟨claimC3 ⟨1, [("Receiver Name", [some "R"]), ("Customer Name", [some "C"])]⟩
      (by decide) (by decide) _ _ "RECEIVER NAME" [] _ "Customer Name" "Customer Name"
      (by decide) (by decide) (by decide) (by decide),
   by decide⟩

theorem ws_not_word (c : Char) (h : c.isWhitespace = true) : isWordChar c = false := by
  simp only [Char.isWhitespace, Bool.or_eq_true, decide_eq_true_eq] at h
  have h4 : c = ' ' ∨ c = '\t' ∨ c = '\r' ∨ c = '\n' := by tauto
  rcases h4 with h | h | h | h <;> subst h <;> decide

theorem filter_dropWhile_ws (l : List Char) :
    (l.dropWhile Char.isWhitespace).filter isWordChar = l.filter isWordChar := by
  induction l with
  | nil => rfl
  | cons c t ih =>
    by_cases h : c.isWhitespace
    · rw [List.dropWhile_cons_of_pos (by simp [h]), ih,
        List.filter_cons_of_neg (by simp [ws_not_word c h])]
    · rw [List.dropWhile_cons_of_neg (by simp [h])]

theorem filter_pyStrip (l : List Char) :
    (pyStrip l).filter isWordChar = l.filter isWordChar := by
  unfold pyStrip
  rw [List.filter_reverse, filter_dropWhile_ws, List.filter_reverse,
    List.reverse_reverse, filter_dropWhile_ws]

theorem collapseWS_one (c : Char) :
    collapseWS [c] = if c.isWhitespace then [' '] else [c] := rfl

theorem collapseWS_cons2 (c1 c2 : Char) (t : List Char) :
    collapseWS (c1 :: c2 :: t) =
      if c1.isWhitespace then
        (if c2.isWhitespace then collapseWS (c2 :: t) else ' ' :: collapseWS (c2 :: t))
      else c1 :: collapseWS (c2 :: t) := rfl

theorem filter_collapseWS : ∀ l : List Char,
    (collapseWS l).filter isWordChar = l.filter isWordChar := by
  intro l
  induction l with
  | nil => rfl
  | cons c1 t ih =>
    cases t with
    | nil =>
      rw [collapseWS_one]
      by_cases h : c1.isWhitespace
      · rw [if_pos h, List.filter_cons_of_neg (by decide),
          List.filter_cons_of_neg (by simp [ws_not_word c1 h])]
      · rw [if_neg h]
    | cons c2 t2 =>
      rw [collapseWS_cons2]
      by_cases h1 : c1.isWhitespace
      · rw [if_pos h1]
        have hc1 : ¬ isWordChar c1 = true := by simp [ws_not_word c1 h1]
        by_cases h2 : c2.isWhitespace
        · rw [if_pos h2, ih, List.filter_cons_of_neg hc1]
        · rw [if_neg h2, List.filter_cons_of_neg (by decide : ¬ isWordChar ' ' = true), ih,
            List.filter_cons_of_neg hc1]
      · rw [if_neg h1]
        by_cases hw : isWordChar c1
        · rw [List.filter_cons_of_pos hw, ih, List.filter_cons_of_pos hw]
        · rw [List.filter_cons_of_neg hw, ih, List.filter_cons_of_neg hw]

/-- Claim C4 (amended): the Header Normalizer keeps exactly the letters,
digits AND UNDERSCORES of the header (Python `\W` treats `_` as a word
character), uppercased, in order; consequently two headers differing
only by case, whitespace runs, or punctuation other than the underscore
normalize to the same key. -/
theorem claimC4 :
    (∀ h : String, clean_column_name h = ⟨wordKey h⟩) ∧
    (∀ h1 h2 : String, wordKey h1 = wordKey h2 →
      clean_column_name h1 = clean_column_name h2) := by
  have hkey : ∀ h : String, clean_column_name h = ⟨wordKey h⟩ := by
    intro h
    unfold clean_column_name wordKey
    rw [filter_collapseWS, filter_pyStrip]
  exact ⟨hkey, fun h1 h2 he => by rw [hkey h1, hkey h2, he]⟩

/-- Claim C4, counterexample to the claim as stated: "a_b" and "ab" have
the same letters and digits in the same order (they differ only by a
punctuation character, the underscore), yet their normalization keys
differ, because `re.sub(r'\W', '', ...)` does not remove `_`. -/
theorem claimC4_counterexample :
    (("a_b" : String).data.filter Char.isAlphanum =
      ("ab" : String).data.filter Char.isAlphanum) ∧
    clean_column_name "a_b" ≠ clean_column_name "ab" ∧
    clean_column_name "a_b" = "A_B" := by decide

/-- Claim C4, witness: two headers differing only by case, whitespace
width and a trailing dot share one key. -/
theorem claimC4_witness :
    wordKey "Invoice  No." = wordKey "invoice no" ∧
    clean_column_name "Invoice  No." = clean_column_name "invoice no" :=
  ⟨by decide, claimC4.2 "Invoice  No." "invoice no" (by decide)⟩

/-!  Calendar lemmas: `nextDay` iteration stays on valid dates and tracks
the linear day count `rataDie`, which bounds the reachable years. -/

theorem daysInMonth_le (y m : Nat) : daysInMonth y m ≤ 31 := by
  unfold daysInMonth
  split <;> first | omega | (split <;> omega)

theorem daysInMonth_pos (y m : Nat) (h1 : 1 ≤ m) (h2 : m ≤ 12) :
    1 ≤ daysInMonth y m := by
  interval_cases m <;> simp only [daysInMonth] <;> (try split) <;> omega

theorem nextDay_validMD (t : D3) (h : validMD t) : validMD (nextDay t) := by
  obtain ⟨y, m, d⟩ := t
  dsimp only [validMD] at h
  obtain ⟨hy, hm1, hm2, hd1, hd2⟩ := h
  show validMD (nextDay ⟨y, m, d⟩)
  unfold nextDay
  by_cases h1 : d < daysInMonth y m
  · rw [if_pos h1]
    refine ⟨?_, ?_, ?_, ?_, ?_⟩ <;> dsimp only [validMD] <;> omega
  · rw [if_neg h1]
    by_cases h2 : m < 12
    · rw [if_pos h2]
      have hp := daysInMonth_pos y (m + 1) (by omega) (by omega)
      refine ⟨?_, ?_, ?_, ?_, ?_⟩ <;> dsimp only [validMD] <;> omega
    · rw [if_neg h2]
      have hp := daysInMonth_pos (y + 1) 1 (by omega) (by omega)
      refine ⟨?_, ?_, ?_, ?_, ?_⟩ <;> dsimp only [validMD] <;> omega

theorem addDays_validMD (t : D3) (n : Nat) (h : validMD t) :
    validMD (addDays t n) := by
  induction n generalizing t with
  | zero => exact h
  | succ n ih => exact ih (nextDay t) (nextDay_validMD t h)

theorem nextDay_y_ge (t : D3) : t.y ≤ (nextDay t).y := by
  obtain ⟨y, m, d⟩ := t
  unfold nextDay
  split
  · exact Nat.le_refl y
  · split
    · exact Nat.le_refl y
    · exact Nat.le_succ y

theorem addDays_y_ge (t : D3) (n : Nat) : t.y ≤ (addDays t n).y := by
  induction n generalizing t with
  | zero => exact Nat.le_refl t.y
  | succ n ih => exact (nextDay_y_ge t).trans (ih (nextDay t))

set_option maxHeartbeats 1000000 in
theorem rataDie_nextDay (t : D3) (h : validMD t) :
    rataDie (nextDay t) = rataDie t + 1 := by
  obtain ⟨y, m, d⟩ := t
  dsimp only [validMD] at h
  obtain ⟨hy, hm1, hm2, hd1, hd2⟩ := h
  show rataDie (nextDay ⟨y, m, d⟩) = rataDie ⟨y, m, d⟩ + 1
  unfold nextDay
  by_cases h1 : d < daysInMonth y m
  · rw [if_pos h1]
    simp only [rataDie]
    dsimp only
    omega
  · rw [if_neg h1]
    by_cases h2 : m < 12
    · rw [if_pos h2]
      interval_cases m <;>
        (by_cases hl : isLeap y = true <;>
          simp only [daysInMonth, hl, Bool.false_eq_true, if_true, if_false] at h1 hd2 <;>
          simp [rataDie, daysBeforeMonth, hl] <;>
          omega)
    · have hm : m = 12 := by omega
      subst hm
      rw [if_neg h2]
      have hd : d = 31 := by
        simp only [daysInMonth] at h1 hd2
        omega
      subst hd
      show rataDie ⟨y + 1, 1, 1⟩ = rataDie ⟨y, 12, 31⟩ + 1
      simp only [rataDie, daysBeforeMonth]
      dsimp only
      rw [if_neg (by simp : ¬(3 ≤ 1 ∧ isLeap (y + 1) = true))]
      by_cases hl : isLeap y = true
      · rw [if_pos ⟨by omega, hl⟩]
        simp only [isLeap, Bool.and_eq_true, decide_eq_true_eq, Bool.or_eq_true,
          Bool.not_eq_true', decide_eq_false_iff_not] at hl
        omega
      · rw [if_neg (fun hc => hl hc.2)]
        simp only [isLeap, Bool.and_eq_true, decide_eq_true_eq, Bool.or_eq_true,
          Bool.not_eq_true', decide_eq_false_iff_not] at hl
        omega

theorem rataDie_addDays (t : D3) (n : Nat) (h : validMD t) :
    rataDie (addDays t n) = rataDie t + n := by
  induction n generalizing t with
  | zero => rfl
  | succ n ih =>
    show rataDie (addDays (nextDay t) n) = rataDie t + (n + 1)
    rw [ih (nextDay t) (nextDay_validMD t h), rataDie_nextDay t h]
    omega

theorem epoch_validMD : validMD ⟨1899, 12, 30⟩ := by
  refine ⟨?_, ?_, ?_, ?_, ?_⟩ <;> simp [daysInMonth]

theorem rataDie_epoch : rataDie ⟨1899, 12, 30⟩ = 693594 := by decide

theorem y_bound_of_rataDie (r : D3)
    (h : rataDie r ≤ rataDie ⟨1899, 12, 30⟩ + maxTimedeltaDays) : r.y < 2262 := by
  rw [rataDie_epoch] at h
  by_contra hy
  push_neg at hy
  have hd : 365 * (r.y - 1) + (r.y - 1) / 4 - (r.y - 1) / 100 + (r.y - 1) / 400 ≤ rataDie r := by
    simp only [rataDie]
    omega
  simp only [maxTimedeltaDays] at h
  omega

theorem dateLE_true_of_y_lt (a b : D3) (h : a.y < b.y) : dateLE a b = true := by
  simp [dateLE, h]

theorem serial_result_ok (n : Nat) (hn : n ≤ maxTimedeltaDays) :
    validMD (addDays ⟨1899, 12, 30⟩ n) ∧
    (addDays ⟨1899, 12, 30⟩ n).y ≤ 9999 ∧
    tsInRange (addDays ⟨1899, 12, 30⟩ n) = true := by
  have hv := addDays_validMD ⟨1899, 12, 30⟩ n epoch_validMD
  have hy : 1899 ≤ (addDays ⟨1899, 12, 30⟩ n).y := addDays_y_ge ⟨1899, 12, 30⟩ n
  have hr : rataDie (addDays ⟨1899, 12, 30⟩ n) = rataDie ⟨1899, 12, 30⟩ + n :=
    rataDie_addDays ⟨1899, 12, 30⟩ n epoch_validMD
  have hb : (addDays ⟨1899, 12, 30⟩ n).y < 2262 :=
    y_bound_of_rataDie _ (by omega)
  refine ⟨hv, by omega, ?_⟩
  simp only [tsInRange, Bool.and_eq_true]
  constructor
  · apply dateLE_true_of_y_lt
    show 1677 < (addDays ⟨1899, 12, 30⟩ n).y
    omega
  · apply dateLE_true_of_y_lt
    show (addDays ⟨1899, 12, 30⟩ n).y < 2262
    omega

/-!  Parser lemmas: a formatted `DD-MM-YYYY` string re-parses under the
first explicit format, which makes `normalize_date` outputs fixed
points. -/

theorem digitChar_facts : ∀ k < 10, (digitChar k).isDigit = true ∧
    charVal (digitChar k) = k ∧ (digitChar k).isWhitespace = false ∧
    digitChar k ≠ ' ' ∧ digitChar k ≠ '.' := by decide

theorem firstSome_cons_some {α β : Type} (a : α) (l : List α) (f : α → Option β)
    (b : β) (h : f a = some b) : firstSome (a :: l) f = some b := by
  simp only [firstSome, h]

theorem expectChar_cons_self (c : Char) (rest : List Char) :
    expectChar c (c :: rest) = some rest := by
  simp [expectChar]

theorem parseNN_pad (hi v : Nat) (rest : List Char) (hv1 : 1 ≤ v) (hv2 : v ≤ hi)
    (hh : hi ≤ 99) :
    ∃ l2, parseNN hi (digitChar (v / 10) :: digitChar (v % 10) :: rest) =
      (v, rest) :: l2 := by
  obtain ⟨ha1, ha2, -, -, -⟩ := digitChar_facts (v / 10) (by omega)
  obtain ⟨hb1, hb2, -, -, -⟩ := digitChar_facts (v % 10) (by omega)
  have hveq : 10 * (v / 10) + v % 10 = v := by omega
  have hcond : ((digitChar (v / 10)).isDigit && (digitChar (v % 10)).isDigit &&
      decide (1 ≤ 10 * charVal (digitChar (v / 10)) + charVal (digitChar (v % 10))) &&
      decide (10 * charVal (digitChar (v / 10)) + charVal (digitChar (v % 10)) ≤ hi)) = true := by
    rw [ha1, hb1, ha2, hb2, hveq]
    simp [hv1, hv2]
  refine ⟨(if ((digitChar (v / 10)).isDigit && decide (1 ≤ charVal (digitChar (v / 10))) &&
      decide (charVal (digitChar (v / 10)) ≤ 9)) then
      [(charVal (digitChar (v / 10)), digitChar (v % 10) :: rest)] else []), ?_⟩
  show ((if ((digitChar (v / 10)).isDigit && (digitChar (v % 10)).isDigit &&
      decide (1 ≤ 10 * charVal (digitChar (v / 10)) + charVal (digitChar (v % 10))) &&
      decide (10 * charVal (digitChar (v / 10)) + charVal (digitChar (v % 10)) ≤ hi)) then
        [(10 * charVal (digitChar (v / 10)) + charVal (digitChar (v % 10)), rest)] else []) ++
      (if ((digitChar (v / 10)).isDigit && decide (1 ≤ charVal (digitChar (v / 10))) &&
        decide (charVal (digitChar (v / 10)) ≤ 9)) then
        [(charVal (digitChar (v / 10)), digitChar (v % 10) :: rest)] else [])) = (v, rest) ::
      (if ((digitChar (v / 10)).isDigit && decide (1 ≤ charVal (digitChar (v / 10))) &&
        decide (charVal (digitChar (v / 10)) ≤ 9)) then
        [(charVal (digitChar (v / 10)), digitChar (v % 10) :: rest)] else [])
  rw [if_pos hcond, ha2, hb2, hveq, List.singleton_append]

theorem parse4Y_pad (y : Nat) (hy : y ≤ 9999) (rest : List Char) :
    parse4Y (digitChar (y / 1000) :: digitChar (y / 100 % 10) ::
      digitChar (y / 10 % 10) :: digitChar (y % 10) :: rest) = some (y, rest) := by
  obtain ⟨h1, h1v, -, -, -⟩ := digitChar_facts (y / 1000) (by omega)
  obtain ⟨h2, h2v, -, -, -⟩ := digitChar_facts (y / 100 % 10) (by omega)
  obtain ⟨h3, h3v, -, -, -⟩ := digitChar_facts (y / 10 % 10) (by omega)
  obtain ⟨h4, h4v, -, -, -⟩ := digitChar_facts (y % 10) (by omega)
  show (if ((digitChar (y / 1000)).isDigit && (digitChar (y / 100 % 10)).isDigit &&
      (digitChar (y / 10 % 10)).isDigit && (digitChar (y % 10)).isDigit) then
      some (1000 * charVal (digitChar (y / 1000)) + 100 * charVal (digitChar (y / 100 % 10)) +
        10 * charVal (digitChar (y / 10 % 10)) + charVal (digitChar (y % 10)), rest)
    else none) = some (y, rest)
  rw [if_pos (by simp [h1, h2, h3, h4])]
  rw [h1v, h2v, h3v, h4v]
  have : 1000 * (y / 1000) + 100 * (y / 100 % 10) + 10 * (y / 10 % 10) + y % 10 = y := by
    omega
  rw [this]

theorem fmtTriple_data (t : D3) : (fmtTriple t).data =
    [digitChar (t.d / 10), digitChar (t.d % 10), '-',
     digitChar (t.m / 10), digitChar (t.m % 10), '-',
     digitChar (t.y / 1000), digitChar (t.y / 100 % 10),
     digitChar (t.y / 10 % 10), digitChar (t.y % 10)] := rfl

theorem parse_fmt_roundtrip (t : D3) (h1 : validMD t) (h9 : t.y ≤ 9999)
    (hr : tsInRange t = true) :
    ∃ ts : TS, parseDMYnum '-' (fmtTriple t).data = some ts ∧ ts.date = t := by
  obtain ⟨y, m, d⟩ := t
  dsimp only [validMD] at h1
  dsimp only at h9 hr
  obtain ⟨hy, hm1, hm2, hd1, hd2⟩ := h1
  have hd31 : d ≤ 31 := le_trans hd2 (daysInMonth_le y m)
  have hok : (validDMY ⟨y, m, d⟩ && tsInRange ⟨y, m, d⟩) = true := by
    rw [Bool.and_eq_true]
    refine ⟨?_, hr⟩
    simp only [validDMY, Bool.and_eq_true, decide_eq_true_eq]
    omega
  obtain ⟨l2, hp1⟩ := parseNN_pad 31 d
    ('-' :: digitChar (m / 10) :: digitChar (m % 10) :: '-' :: digitChar (y / 1000) ::
      digitChar (y / 100 % 10) :: digitChar (y / 10 % 10) :: digitChar (y % 10) :: [])
    hd1 hd31 (by omega)
  obtain ⟨l3, hp2⟩ := parseNN_pad 12 m
    ('-' :: digitChar (y / 1000) :: digitChar (y / 100 % 10) ::
      digitChar (y / 10 % 10) :: digitChar (y % 10) :: [])
    hm1 hm2 (by omega)
  refine ⟨⟨⟨y, m, d⟩, hok⟩, ?_, rfl⟩
  show firstSome (parseNN 31 (digitChar (d / 10) :: digitChar (d % 10) :: '-' ::
      digitChar (m / 10) :: digitChar (m % 10) :: '-' :: digitChar (y / 1000) ::
      digitChar (y / 100 % 10) :: digitChar (y / 10 % 10) :: digitChar (y % 10) :: []))
    _ = _
  rw [hp1]
  apply firstSome_cons_some
  try dsimp only
  rw [expectChar_cons_self, Option.some_bind]
  rw [hp2]
  apply firstSome_cons_some
  try dsimp only
  rw [expectChar_cons_self, Option.some_bind]
  rw [parse4Y_pad y h9 [], Option.some_bind]
  rw [if_pos rfl]
  unfold mkTS
  rw [dif_pos hok]

theorem takeWhile_eq_self_of_all (p : Char → Bool) :
    ∀ (l : List Char), (∀ c ∈ l, p c = true) → l.takeWhile p = l := by
  intro l
  induction l with
  | nil => intro _; rfl
  | cons c t ih =>
    intro h
    rw [List.takeWhile_cons_of_pos (h c (List.mem_cons_self c t)),
      ih (fun c' hc' => h c' (List.mem_cons_of_mem c hc'))]

theorem dropWhile_ws_of_all (l : List Char)
    (h : ∀ c ∈ l, c.isWhitespace = false) : l.dropWhile Char.isWhitespace = l := by
  cases l with
  | nil => rfl
  | cons c t =>
    exact List.dropWhile_cons_of_neg (by simp [h c (List.mem_cons_self c t)])

theorem pyStrip_of_all (l : List Char)
    (h : ∀ c ∈ l, c.isWhitespace = false) : pyStrip l = l := by
  unfold pyStrip
  rw [dropWhile_ws_of_all l h,
    dropWhile_ws_of_all l.reverse (fun c hc => h c (List.mem_reverse.mp hc)),
    List.reverse_reverse]

theorem fmtTriple_chars (t : D3) (h1 : validMD t) (h9 : t.y ≤ 9999) :
    ∀ c ∈ (fmtTriple t).data,
      c.isWhitespace = false ∧ c ≠ ' ' ∧ c ≠ '.' := by
  obtain ⟨y, m, d⟩ := t
  dsimp only [validMD] at h1
  dsimp only at h9
  obtain ⟨hy, hm1, hm2, hd1, hd2⟩ := h1
  have hd31 : d ≤ 31 := le_trans hd2 (daysInMonth_le y m)
  intro c hc
  rw [fmtTriple_data] at hc
  dsimp only at hc
  simp only [List.mem_cons, List.not_mem_nil, or_false] at hc
  rcases hc with rfl | rfl | rfl | rfl | rfl | rfl | rfl | rfl | rfl | rfl
  · obtain ⟨-, -, a, b, e⟩ := digitChar_facts (d / 10) (by omega); exact ⟨a, b, e⟩
  · obtain ⟨-, -, a, b, e⟩ := digitChar_facts (d % 10) (by omega); exact ⟨a, b, e⟩
  · exact ⟨by decide, by decide, by decide⟩
  · obtain ⟨-, -, a, b, e⟩ := digitChar_facts (m / 10) (by omega); exact ⟨a, b, e⟩
  · obtain ⟨-, -, a, b, e⟩ := digitChar_facts (m % 10) (by omega); exact ⟨a, b, e⟩
  · exact ⟨by decide, by decide, by decide⟩
  · obtain ⟨-, -, a, b, e⟩ := digitChar_facts (y / 1000) (by omega); exact ⟨a, b, e⟩
  · obtain ⟨-, -, a, b, e⟩ := digitChar_facts (y / 100 % 10) (by omega); exact ⟨a, b, e⟩
  · obtain ⟨-, -, a, b, e⟩ := digitChar_facts (y / 10 % 10) (by omega); exact ⟨a, b, e⟩
  · obtain ⟨-, -, a, b, e⟩ := digitChar_facts (y % 10) (by omega); exact ⟨a, b, e⟩

theorem serialCase_fmtTriple (t : D3) (_h1 : validMD t) (_h9 : t.y ≤ 9999) :
    serialCase (fmtTriple t).data = none := by
  have hmem : '-' ∈ (fmtTriple t).data.filter (· ≠ '.') := by
    refine List.mem_filter.mpr ⟨?_, by decide⟩
    rw [fmtTriple_data]
    simp
  have hall : ((fmtTriple t).data.filter (· ≠ '.')).all Char.isDigit = false := by
    cases hb : ((fmtTriple t).data.filter (· ≠ '.')).all Char.isDigit with
    | false => rfl
    | true => exact absurd (List.all_eq_true.mp hb '-' hmem) (by decide)
  simp only [serialCase, hall, Bool.and_false, Bool.false_eq_true, if_false]

theorem TS_props (ts : TS) :
    validMD ts.date ∧ ts.date.y ≤ 9999 ∧ tsInRange ts.date = true := by
  have h := ts.ok
  rw [Bool.and_eq_true] at h
  obtain ⟨hv, hr⟩ := h
  simp only [validDMY, Bool.and_eq_true, decide_eq_true_eq] at hv
  obtain ⟨⟨⟨⟨⟨ha, hb⟩, hc⟩, hd⟩, he⟩, hf⟩ := hv
  exact ⟨⟨ha, hc, hd, he, hf⟩, hb, hr⟩

theorem tryFormats_fmtTriple (t : D3) (h1 : validMD t) (h9 : t.y ≤ 9999)
    (hr : tsInRange t = true) :
    ∃ ts : TS, tryFormats (fmtTriple t).data = some ts ∧ ts.date = t := by
  obtain ⟨ts, hp, hd⟩ := parse_fmt_roundtrip t h1 h9 hr
  exact ⟨ts, by simp only [tryFormats, hp], hd⟩

theorem nd_fmtTriple_fixed (fb : String → Option TS) (t : D3) (h1 : validMD t)
    (h9 : t.y ≤ 9999) (hr : tsInRange t = true) :
    normalize_date fb (some (fmtTriple t)) = fmtTriple t := by
  have hchars := fmtTriple_chars t h1 h9
  have hstrip : pyStrip (fmtTriple t).data = (fmtTriple t).data :=
    pyStrip_of_all _ (fun c hc => (hchars c hc).1)
  have hne : (fmtTriple t).data ≠ [] := by
    rw [fmtTriple_data]
    simp
  have htake : (fmtTriple t).data.takeWhile (· ≠ ' ') = (fmtTriple t).data :=
    takeWhile_eq_self_of_all _ _ (fun c hc => by
      simpa using (hchars c hc).2.1)
  obtain ⟨ts, htf, htsd⟩ := tryFormats_fmtTriple t h1 h9 hr
  unfold normalize_date
  simp only [hstrip, htake, if_neg hne, serialCase_fmtTriple t h1 h9, htf, htsd]

theorem nd_empty_string (fb : String → Option TS) :
    normalize_date fb (some "") = "" := rfl

theorem serialCase_some (cs : List Char) (r : String) (h : serialCase cs = some r) :
    ∃ n, n ≤ maxTimedeltaDays ∧ r = fmtTriple (addDays ⟨1899, 12, 30⟩ n) := by
  unfold serialCase at h
  dsimp only at h
  split at h
  · split at h
    · split at h
      · rename_i n heq hn
        exact ⟨n, hn, (Option.some.inj h).symm⟩
      · exact absurd h (by simp)
    · exact absurd h (by simp)
  · exact absurd h (by simp)

theorem nd_output (fb : String → Option TS) (v : Option String) :
    normalize_date fb v = "" ∨
      ∃ t : D3, validMD t ∧ t.y ≤ 9999 ∧ tsInRange t = true ∧
        normalize_date fb v = fmtTriple t := by
  cases v with
  | none => exact Or.inl rfl
  | some s =>
    simp only [normalize_date]
    by_cases hb : pyStrip s.data = []
    · rw [if_pos hb]
      exact Or.inl rfl
    · rw [if_neg hb]
      cases hs : serialCase ((pyStrip s.data).takeWhile (· ≠ ' ')) with
      | some r =>
        simp only [hs]
        obtain ⟨n, hn, rfl⟩ := serialCase_some _ r hs
        obtain ⟨hv, h9, hr⟩ := serial_result_ok n hn
        exact Or.inr ⟨addDays ⟨1899, 12, 30⟩ n, hv, h9, hr, rfl⟩
      | none =>
        simp only [hs]
        cases ht : tryFormats ((pyStrip s.data).takeWhile (· ≠ ' ')) with
        | some ts =>
          simp only [ht]
          obtain ⟨hv, h9, hr⟩ := TS_props ts
          exact Or.inr ⟨ts.date, hv, h9, hr, rfl⟩
        | none =>
          simp only [ht]
          cases hf : fb ⟨(pyStrip s.data).takeWhile (· ≠ ' ')⟩ with
          | some ts =>
            simp only [hf]
            obtain ⟨hv, h9, hr⟩ := TS_props ts
            exact Or.inr ⟨ts.date, hv, h9, hr, rfl⟩
          | none =>
            simp only [hf]
            exact Or.inl trivial

/-- Claim C10: the date normalizer is idempotent.  Whatever the
permissive fallback parser does, every output of `normalize_date` (the
empty string, or a zero-padded `DD-MM-YYYY` rendering of a valid
in-range date) is a fixed point of `normalize_date`. -/
theorem claimC10 (fb : String → Option TS) (v : Option String) :
    normalize_date fb (some (normalize_date fb v)) = normalize_date fb v := by
  rcases nd_output fb v with h | ⟨t, h1, h9, hr, h⟩ <;> rw [h]
  · exact nd_empty_string fb
  · exact nd_fmtTriple_fixed fb t h1 h9 hr

theorem ws_not_digit (c : Char) (h : c.isWhitespace = true) : c.isDigit = false := by
  simp only [Char.isWhitespace, Bool.or_eq_true, decide_eq_true_eq] at h
  have h4 : c = ' ' ∨ c = '\t' ∨ c = '\r' ∨ c = '\n' := by tauto
  rcases h4 with h | h | h | h <;> subst h <;> decide

theorem digit_not_ws (c : Char) (h : c.isDigit = true) : c.isWhitespace = false := by
  cases hw : c.isWhitespace with
  | false => rfl
  | true => exact absurd h (by simp [ws_not_digit c hw])

theorem digit_ne_space (c : Char) (h : c.isDigit = true) : c ≠ ' ' := by
  intro he
  subst he
  exact absurd h (by decide)

theorem digit_ne_dot (c : Char) (h : c.isDigit = true) : c ≠ '.' := by
  intro he
  subst he
  exact absurd h (by decide)

theorem nd_serial (fb : String → Option TS) (s : String) (hne : s.data ≠ [])
    (hdig : s.data.all Char.isDigit = true)
    (hb : natOfDigits s.data ≤ maxTimedeltaDays) :
    normalize_date fb (some s) =
      fmtTriple (addDays ⟨1899, 12, 30⟩ (natOfDigits s.data)) := by
  have hall : ∀ c ∈ s.data, c.isDigit = true := fun c hc => List.all_eq_true.mp hdig c hc
  have hstrip : pyStrip s.data = s.data :=
    pyStrip_of_all _ (fun c hc => digit_not_ws c (hall c hc))
  have htake : s.data.takeWhile (· ≠ ' ') = s.data :=
    takeWhile_eq_self_of_all _ _ (fun c hc => by simpa using digit_ne_space c (hall c hc))
  have htw : s.data.takeWhile (· ≠ '.') = s.data :=
    takeWhile_eq_self_of_all _ _ (fun c hc => by simpa using digit_ne_dot c (hall c hc))
  have hfil : s.data.filter (· ≠ '.') = s.data :=
    List.filter_eq_self.mpr (fun c hc => by simpa using digit_ne_dot c (hall c hc))
  have hcnt : s.data.count '.' = 0 := by
    rw [List.count_eq_zero]
    intro hc
    exact digit_ne_dot '.' (hall '.' hc) rfl
  have hfloat : pyFloatTrunc s.data = some (natOfDigits s.data) := by
    unfold pyFloatTrunc
    rw [if_pos (by rw [hcnt]; omega), htw]
  have hserial : serialCase s.data =
      some (fmtTriple (addDays ⟨1899, 12, 30⟩ (natOfDigits s.data))) := by
    unfold serialCase
    dsimp only
    rw [hfil, if_pos (by simp [hne, hdig]), hfloat]
    simp only [if_pos hb]
  simp only [normalize_date]
  rw [hstrip, htake, if_neg hne]
  simp only [hserial]

theorem nd_blank (fb : String → Option TS) (v : String) (h : pyStrip v.data = []) :
    normalize_date fb (some v) = "" := by
  simp only [normalize_date, if_pos h]

theorem nd_failall (fb : String → Option TS) (v : String)
    (h1 : serialCase ((pyStrip v.data).takeWhile (· ≠ ' ')) = none)
    (h2 : tryFormats ((pyStrip v.data).takeWhile (· ≠ ' ')) = none)
    (h3 : fb ⟨(pyStrip v.data).takeWhile (· ≠ ' ')⟩ = none) :
    normalize_date fb (some v) = "" := by
  simp only [normalize_date]
  by_cases hb : pyStrip v.data = []
  · rw [if_pos hb]
  · rw [if_neg hb]
    simp only [h1, h2, h3]

/-- Claim C5: `normalize_date` maps "05/01/2024" to "05-01-2024" (for
every fallback parser, since the explicit format list already succeeds);
maps an all-digit string to the calendar date `1899-12-30 + n` days
(`n` the string's value, within the representable timedelta range),
formatted zero-padded `DD-MM-YYYY`; maps `NaN` and whitespace-only input
straight to `""`; and maps input on which the serial reading, every
explicit format, and the permissive fallback all fail to `""`. -/
theorem claimC5 :
    (∀ fb : String → Option TS,
      normalize_date fb (some "05/01/2024") = "05-01-2024") ∧
    (∀ (fb : String → Option TS) (s : String), s.data ≠ [] →
      s.data.all Char.isDigit = true → natOfDigits s.data ≤ maxTimedeltaDays →
      normalize_date fb (some s) =
        fmtTriple (addDays ⟨1899, 12, 30⟩ (natOfDigits s.data))) ∧
    ((∀ fb : String → Option TS, normalize_date fb none = "") ∧
     (∀ (fb : String → Option TS) (v : String), pyStrip v.data = [] →
      normalize_date fb (some v) = "")) ∧
    (∀ (fb : String → Option TS) (v : String),
      serialCase ((pyStrip v.data).takeWhile (· ≠ ' ')) = none →
      tryFormats ((pyStrip v.data).takeWhile (· ≠ ' ')) = none →
      fb ⟨(pyStrip v.data).takeWhile (· ≠ ' ')⟩ = none →
      normalize_date fb (some v) = "") :=
  ⟨fun _ => rfl, nd_serial, ⟨fun _ => rfl, nd_blank⟩, nd_failall⟩

/-- Claim C5, witness: the four behaviors at concrete inputs, including
the spreadsheet serial "45000". -/
theorem claimC5_witness :
    normalize_date (fun _ => none) (some "05/01/2024") = "05-01-2024" ∧
    normalize_date (fun _ => none) (some "45000") =
      fmtTriple (addDays ⟨1899, 12, 30⟩ 45000) ∧
    normalize_date (fun _ => none) (some "   ") = "" ∧
    normalize_date (fun _ => none) (some "not a date") = "" := by
  refine ⟨claimC5.1 (fun _ => none), ?_, claimC5.2.2.1.2 (fun _ => none) "   " (by decide),
    claimC5.2.2.2 (fun _ => none) "not a date" (by decide) rfl rfl⟩
  have h := claimC5.2.1 (fun _ => none) "45000" (by decide) (by decide) (by decide)
  have h45 : natOfDigits ("45000" : String).data = 45000 := by decide
  rw [h45] at h
  exact h

/-!  Wellformedness of mapped and processed frames, for the combination
and export claims. -/

theorem find?_self_of_nodup :
    ∀ (l : List (String × List SCell)), (l.map (·.1)).Nodup →
      ∀ p ∈ l, l.find? (·.1 = p.1) = some p := by
  intro l
  induction l with
  | nil => intro _ p hp; simp at hp
  | cons q t ih =>
    intro hnd p hp
    simp only [List.map_cons, List.nodup_cons] at hnd
    by_cases hq : q.1 = p.1
    · rw [List.find?_cons_of_pos _ (by simp [hq])]
      rcases List.mem_cons.mp hp with rfl | ht
      · rfl
      · have hin : q.1 ∈ t.map (·.1) := by
          rw [hq]
          exact List.mem_map_of_mem _ ht
        exact absurd hin hnd.1
    · rw [List.find?_cons_of_neg _ (by simp [hq])]
      rcases List.mem_cons.mp hp with rfl | ht
      · exact absurd rfl hq
      · exact ih hnd.2 p ht

theorem Frame.getCol_of_mem_nodup (f : Frame) (hnd : f.names.Nodup)
    (p : String × List SCell) (hp : p ∈ f.cols) : f.getCol p.1 = p.2 := by
  simp only [Frame.getCol, find?_self_of_nodup f.cols hnd p hp]
  rfl

theorem map_columns_wf (df : Frame) (hwf : df.wf) (cmap : List (String × List String))
    (hk : cmap.map (·.1) = template_columns) : (map_columns df cmap).wf := by
  intro p hp
  have hnames : (map_columns df cmap).names = template_columns := map_columns_names df cmap
  have hnd : (map_columns df cmap).names.Nodup := by
    rw [hnames]
    decide
  have hcol : (map_columns df cmap).getCol p.1 = p.2 :=
    Frame.getCol_of_mem_nodup _ hnd p hp
  have hkeys : p.1 ∈ cmap.map (·.1) := by
    rw [hk, ← hnames]
    exact List.mem_map_of_mem _ hp
  obtain ⟨e, he, he1⟩ := List.mem_map.mp hkeys
  obtain ⟨l1, l2, hsplit⟩ := List.append_of_mem he
  obtain ⟨tc, al⟩ := e
  have htc : tc = p.1 := he1
  subst hsplit
  rw [← htc] at hcol
  have hndk : ((l1 ++ (tc, al) :: l2).map (·.1)).Nodup := by
    rw [hk]
    decide
  have hmem : ∀ e ∈ l1 ++ (tc, al) :: l2, e.1 ∈ template_columns := by
    intro e he'
    rw [← hk]
    exact List.mem_map_of_mem _ he'
  have hrows := claimC2 df hwf _ hk
  cases hm : firstMatch al df.names with
  | some orig =>
    have hcol2 : (map_columns df (l1 ++ (tc, al) :: l2)).getCol tc = df.getCol orig := by
      rw [map_columns]
      exact matched_aux df hwf l1 tc al orig l2 hndk hmem hm
    have hlen : (df.getCol orig).length = df.nrows :=
      df.getCol_length_of_wf hwf orig (firstMatch_mem _ _ _ hm)
    have hany : (l1 ++ (tc, al) :: l2).any (entryMatched df) = true :=
      List.any_eq_true.mpr ⟨(tc, al), by simp, by simp [entryMatched, hm]⟩
    rw [← hcol, hcol2, hlen, hrows, hany]
    simp
  | none =>
    by_cases h0 : df.nrows = 0
    · have hall : map_columns df (l1 ++ (tc, al) :: l2) = emptyTemplate := by
        rw [map_columns]
        exact fold_empty_df df hwf h0 _
      rw [← hcol, hall, emptyTemplate_getCol]
      rfl
    · have hcol2 : (map_columns df (l1 ++ (tc, al) :: l2)).getCol tc =
          (if l1.any (entryMatched df) then List.replicate df.nrows (some "")
           else if l2.any (entryMatched df) then List.replicate df.nrows none
           else []) := by
        rw [map_columns]
        exact unmatched_aux df hwf h0 l1 tc al l2 hndk hmem hm
      rw [← hcol, hcol2, hrows]
      by_cases ha1 : l1.any (entryMatched df) = true
      · have hany : (l1 ++ (tc, al) :: l2).any (entryMatched df) = true := by
          simp [List.any_append, ha1]
        rw [if_pos ha1, if_pos hany, List.length_replicate]
      · by_cases ha2 : l2.any (entryMatched df) = true
        · have hany : (l1 ++ (tc, al) :: l2).any (entryMatched df) = true := by
            simp [List.any_append, List.any_cons, ha2]
          rw [if_neg ha1, if_pos ha2, if_pos hany, List.length_replicate]
        · have hany : (l1 ++ (tc, al) :: l2).any (entryMatched df) = false := by
            simp only [List.any_append, List.any_cons, Bool.or_eq_false_iff]
            refine ⟨by simpa using ha1, by simp [entryMatched, hm], by simpa using ha2⟩
          rw [if_neg ha1, if_neg ha2, hany]
          simp

theorem preprocess_nrows (fb : String → Option TS) (f : Frame) :
    (preprocess_df fb f).nrows = f.nrows := rfl

theorem preprocess_names (fb : String → Option TS) (f : Frame) :
    (preprocess_df fb f).names = f.names := by
  simp [preprocess_df, PFrame.names, Frame.names, List.map_map, Function.comp_def]

theorem preprocess_wf (fb : String → Option TS) (f : Frame) (hwf : f.wf) :
    (preprocess_df fb f).wf := by
  intro p hp
  simp only [preprocess_df, List.mem_map] at hp
  obtain ⟨q, hq, rfl⟩ := hp
  by_cases h1 : q.1 ∈ numeric_cols
  · simp [h1, PCol.len, hwf q hq, preprocess_nrows]
  · by_cases h2 : q.1 = "INVOICE DATE"
    · simp [h1, h2, PCol.len, hwf q hq, preprocess_nrows,
        (show "INVOICE DATE" ∉ numeric_cols by decide)]
    · simp [h1, h2, PCol.len, hwf q hq, preprocess_nrows]

theorem preprocess_kinded (fb : String → Option TS) (f : Frame) :
    (preprocess_df fb f).kinded := by
  intro p hp
  simp only [preprocess_df, List.mem_map] at hp
  obtain ⟨q, hq, rfl⟩ := hp
  by_cases h1 : q.1 ∈ numeric_cols
  · simp [h1, PCol.kind, kindOf]
  · by_cases h2 : q.1 = "INVOICE DATE"
    · simp [h1, h2, PCol.kind, kindOf,
        (show "INVOICE DATE" ∉ numeric_cols by decide)]
    · simp [h1, h2, PCol.kind, kindOf]

theorem find?_map_snd (l : List (String × List SCell))
    (h : String × List SCell → PCol) (name : String) :
    ((l.map (fun p => (p.1, h p))).find? (·.1 = name)) =
      (l.find? (·.1 = name)).map (fun p => (p.1, h p)) := by
  induction l with
  | nil => rfl
  | cons p t ih =>
    by_cases hp : p.1 = name
    · rw [List.map_cons, List.find?_cons_of_pos _ (by simp [hp]),
        List.find?_cons_of_pos _ (by simp [hp]), Option.map_some']
    · rw [List.map_cons, List.find?_cons_of_neg _ (by simp [hp]),
        List.find?_cons_of_neg _ (by simp [hp]), ih]

/-- Claim C6: on every frame carrying it, each of the five canonical
numeric columns is rewritten cell-by-cell to the parsed number when the
cell parses and to zero otherwise (`pd.to_numeric(..., errors='coerce')`
followed by `fillna(0)`), uniformly for all five fields; the policy is a
total function (no cell can raise), and in particular "1,234", the empty
string, and a missing cell all map to zero. -/
theorem claimC6 :
    (∀ (fb : String → Option TS) (f : Frame) (name : String),
      name ∈ numeric_cols → name ∈ f.names →
      (preprocess_df fb f).getPCol name =
        PCol.nums ((f.getCol name).map (fun c => (pyToNumeric c).getD 0))) ∧
    ((pyToNumeric (some "1,234")).getD 0 = 0 ∧ (pyToNumeric (some "")).getD 0 = 0 ∧
      (pyToNumeric none).getD 0 = 0) ∧
    (∀ c : SCell, (pyToNumeric c = none ∧ (pyToNumeric c).getD 0 = 0) ∨
      ∃ q : ℚ, pyToNumeric c = some q ∧ (pyToNumeric c).getD 0 = q) := by
  refine ⟨?_, ⟨by decide, by decide, rfl⟩, ?_⟩
  · intro fb f name hnum hmem
    simp only [preprocess_df, PFrame.getPCol]
    rw [find?_map_snd f.cols
      (fun p => if p.1 ∈ numeric_cols then
          PCol.nums (p.2.map (fun c => (pyToNumeric c).getD 0))
        else if p.1 = "INVOICE DATE" then PCol.dates (p.2.map (normalize_date fb))
        else PCol.raw p.2) name]
    simp only [Frame.names, List.mem_map] at hmem
    obtain ⟨q, hq, rfl⟩ := hmem
    have hs : (f.cols.find? (·.1 = q.1)).isSome :=
      List.find?_isSome.mpr ⟨q, hq, by simp⟩
    obtain ⟨r, hr⟩ := Option.isSome_iff_exists.mp hs
    have hr1 : r.1 = q.1 := by simpa using List.find?_some hr
    have hgc : f.getCol q.1 = r.2 := by
      simp [Frame.getCol, hr]
    rw [hr, hgc, Option.map_some', Option.map_some', Option.getD_some]
    dsimp only
    rw [hr1, if_pos hnum]
  · intro c
    cases hc : pyToNumeric c with
    | none => exact Or.inl ⟨rfl, rfl⟩
    | some q => exact Or.inr ⟨q, rfl, rfl⟩

/-- Claim C6, witness: a one-row frame whose INVOICE VALUE cell is
"1,234" preprocesses that column to the single number 0. -/
theorem claimC6_witness :
    (preprocess_df (fun _ => none)
        ⟨1, [("INVOICE VALUE", [some "1,234"])]⟩).getPCol "INVOICE VALUE" =
      PCol.nums [0] := by
  rw [claimC6.1 (fun _ => none) ⟨1, [("INVOICE VALUE", [some "1,234"])]⟩
    "INVOICE VALUE" (by decide) (by decide)]
  rfl

theorem find?_map_keep {β γ : Type} (l : List (String × β)) (h : String × β → γ)
    (name : String) :
    ((l.map (fun p => (p.1, h p))).find? (·.1 = name)) =
      (l.find? (·.1 = name)).map (fun p => (p.1, h p)) := by
  induction l with
  | nil => rfl
  | cons p t ih =>
    by_cases hp : p.1 = name
    · rw [List.map_cons, List.find?_cons_of_pos _ (by simp [hp]),
        List.find?_cons_of_pos _ (by simp [hp]), Option.map_some']
    · rw [List.map_cons, List.find?_cons_of_neg _ (by simp [hp]),
        List.find?_cons_of_neg _ (by simp [hp]), ih]

theorem PFrame.getPCol_of_find?_some (f : PFrame) (name : String)
    (q : String × PCol) (h : f.cols.find? (·.1 = name) = some q) :
    f.getPCol name = q.2 := by
  simp [PFrame.getPCol, h]

theorem PFrame.getPCol_of_find?_none (f : PFrame) (name : String)
    (h : f.cols.find? (·.1 = name) = none) : f.getPCol name = PCol.raw [] := by
  simp [PFrame.getPCol, h]

theorem PFrame.find?_of_mem_names (f : PFrame) (name : String) (h : name ∈ f.names) :
    ∃ q, f.cols.find? (·.1 = name) = some q ∧ q.1 = name ∧ q ∈ f.cols := by
  simp only [PFrame.names, List.mem_map] at h
  obtain ⟨q0, hq0, rfl⟩ := h
  have hs : (f.cols.find? (·.1 = q0.1)).isSome :=
    List.find?_isSome.mpr ⟨q0, hq0, by simp⟩
  obtain ⟨q, hq⟩ := Option.isSome_iff_exists.mp hs
  exact ⟨q, hq, by simpa using List.find?_some hq, List.mem_of_find?_eq_some hq⟩

theorem PFrame.not_mem_names_of_find?_none (f : PFrame) (name : String)
    (h : f.cols.find? (·.1 = name) = none) : name ∉ f.names := by
  intro hmem
  obtain ⟨q, hq, -, -⟩ := f.find?_of_mem_names name hmem
  rw [h] at hq
  cases hq

theorem PCol.append_len_same (x y : PCol) (h : x.kind = y.kind) :
    (x.append y).len = x.len + y.len := by
  cases x <;> cases y <;> simp_all [PCol.kind, PCol.append, PCol.len]

theorem PCol.append_kind_same (x y : PCol) (h : x.kind = y.kind) :
    (x.append y).kind = x.kind := by
  cases x <;> cases y <;> simp_all [PCol.kind, PCol.append]

theorem PCol.cells_append_same (x y : PCol) (h : x.kind = y.kind) :
    (x.append y).rawCells = x.rawCells ++ y.rawCells ∧
    (x.append y).numCells = x.numCells ++ y.numCells ∧
    (x.append y).dateCells = x.dateCells ++ y.dateCells := by
  cases x <;> cases y <;>
    simp_all [PCol.kind, PCol.append, PCol.rawCells, PCol.numCells, PCol.dateCells]

theorem PCol.cells_of_len_zero (x : PCol) (h : x.len = 0) :
    x.rawCells = [] ∧ x.numCells = [] ∧ x.dateCells = [] := by
  cases x <;>
    simp only [PCol.len, List.length_eq_zero] at h <;>
    simp [PCol.rawCells, PCol.numCells, PCol.dateCells, h]

theorem PFrame.getPCol_cells_nil (f : PFrame) (hwf : f.wf) (h0 : f.nrows = 0)
    (name : String) :
    (f.getPCol name).rawCells = [] ∧ (f.getPCol name).numCells = [] ∧
      (f.getPCol name).dateCells = [] := by
  cases hq : f.cols.find? (·.1 = name) with
  | none =>
    rw [f.getPCol_of_find?_none name hq]
    exact ⟨rfl, rfl, rfl⟩
  | some q =>
    rw [f.getPCol_of_find?_some name q hq]
    refine PCol.cells_of_len_zero q.2 ?_
    rw [hwf q (List.mem_of_find?_eq_some hq), h0]

theorem PFrame.getPCol_kind (f : PFrame) (hk : f.kinded) (name : String)
    (h : name ∈ f.names) : (f.getPCol name).kind = kindOf name := by
  obtain ⟨q, hq, hq1, hqm⟩ := f.find?_of_mem_names name h
  rw [f.getPCol_of_find?_some name q hq, ← hq1]
  exact hk q hqm

theorem PFrame.fst_mem_names (f : PFrame) (q : String × PCol) (hq : q ∈ f.cols) :
    q.1 ∈ f.names := by
  simp only [PFrame.names, List.mem_map]
  exact ⟨q, hq, rfl⟩

theorem find?_concat_cols (a b : PFrame) (name : String) :
    ((a.cols.map (fun p => (p.1, p.2.append (b.getPCol p.1)))).find? (·.1 = name)) =
      (a.cols.find? (·.1 = name)).map
        (fun p => (p.1, p.2.append (b.getPCol p.1))) :=
  find?_map_keep a.cols (fun p => p.2.append (b.getPCol p.1)) name

theorem concatF_nrows (a b : PFrame) : (concatF a b).nrows = a.nrows + b.nrows := by
  unfold concatF
  by_cases h0 : a.nrows = 0
  · rw [if_pos h0, h0, Nat.zero_add]
  · rw [if_neg h0]

theorem concatF_good (a b : PFrame)
    (haw : a.wf) (han : a.names = template_columns)
    (hak : a.nrows = 0 ∨ a.kinded)
    (hbw : b.wf) (hbn : b.names = template_columns) (hbk : b.kinded) :
    (concatF a b).wf ∧ (concatF a b).names = template_columns ∧
    ((concatF a b).nrows = 0 ∨ (concatF a b).kinded) ∧
    (∀ name : String,
      ((concatF a b).getPCol name).rawCells =
        (a.getPCol name).rawCells ++ (b.getPCol name).rawCells ∧
      ((concatF a b).getPCol name).numCells =
        (a.getPCol name).numCells ++ (b.getPCol name).numCells ∧
      ((concatF a b).getPCol name).dateCells =
        (a.getPCol name).dateCells ++ (b.getPCol name).dateCells) := by
  unfold concatF
  by_cases h0 : a.nrows = 0
  · rw [if_pos h0]
    refine ⟨hbw, hbn, Or.inr hbk, fun name => ?_⟩
    obtain ⟨hr, hn, hd⟩ := a.getPCol_cells_nil haw h0 name
    rw [hr, hn, hd]
    exact ⟨rfl, rfl, rfl⟩
  · rw [if_neg h0]
    have hak' : a.kinded := hak.resolve_left h0
    have hsame : ∀ q ∈ a.cols, (b.getPCol q.1).kind = q.2.kind := by
      intro q hq
      rw [hak' q hq]
      exact b.getPCol_kind hbk q.1 (hbn ▸ han ▸ a.fst_mem_names q hq)
    have hblen : ∀ q ∈ a.cols, (b.getPCol q.1).len = b.nrows := by
      intro q hq
      obtain ⟨r, hr, hr1, hrm⟩ :=
        b.find?_of_mem_names q.1 (hbn ▸ han ▸ a.fst_mem_names q hq)
      rw [b.getPCol_of_find?_some q.1 r hr]
      exact hbw r hrm
    refine ⟨?_, ?_, ?_, ?_⟩
    · intro p hp
      simp only [List.mem_map] at hp
      obtain ⟨q, hq, rfl⟩ := hp
      show (q.2.append (b.getPCol q.1)).len = a.nrows + b.nrows
      rw [PCol.append_len_same q.2 (b.getPCol q.1) (hsame q hq).symm,
        haw q hq, hblen q hq]
    · simp only [PFrame.names, List.map_map, ← han]
      rfl
    · refine Or.inr ?_
      intro p hp
      simp only [List.mem_map] at hp
      obtain ⟨q, hq, rfl⟩ := hp
      show (q.2.append (b.getPCol q.1)).kind = kindOf q.1
      rw [PCol.append_kind_same q.2 (b.getPCol q.1) (hsame q hq).symm]
      exact hak' q hq
    · intro name
      cases haf : a.cols.find? (·.1 = name) with
      | none =>
        have hc : PFrame.getPCol ⟨a.nrows + b.nrows,
            a.cols.map (fun p => (p.1, p.2.append (b.getPCol p.1)))⟩ name = PCol.raw [] := by
          show (((a.cols.map (fun p => (p.1, p.2.append (b.getPCol p.1)))).find?
              (·.1 = name)).map (·.2)).getD (PCol.raw []) = PCol.raw []
          rw [find?_concat_cols, haf]
          rfl
        have hbf : b.cols.find? (·.1 = name) = none := by
          cases hbf : b.cols.find? (·.1 = name) with
          | none => rfl
          | some r =>
            exfalso
            refine a.not_mem_names_of_find?_none name haf ?_
            have hr1 : r.1 = name := by simpa using List.find?_some hbf
            have : name ∈ b.names :=
              hr1 ▸ b.fst_mem_names r (List.mem_of_find?_eq_some hbf)
            rw [han, ← hbn]
            exact this
        rw [hc, a.getPCol_of_find?_none name haf, b.getPCol_of_find?_none name hbf]
        exact ⟨rfl, rfl, rfl⟩
      | some q =>
        have hq1 : q.1 = name := by simpa using List.find?_some haf
        have hqm : q ∈ a.cols := List.mem_of_find?_eq_some haf
        have hc : PFrame.getPCol ⟨a.nrows + b.nrows,
            a.cols.map (fun p => (p.1, p.2.append (b.getPCol p.1)))⟩ name =
              q.2.append (b.getPCol q.1) := by
          show (((a.cols.map (fun p => (p.1, p.2.append (b.getPCol p.1)))).find?
              (·.1 = name)).map (·.2)).getD (PCol.raw []) = q.2.append (b.getPCol q.1)
          rw [find?_concat_cols, haf]
          rfl
        have hag : a.getPCol name = q.2 := a.getPCol_of_find?_some name q haf
        rw [hc, hag, ← hq1]
        exact PCol.cells_append_same q.2 (b.getPCol q.1) (hsame q hqm).symm

theorem processSheet_good (fb : String → Option TS) (cmap : List (String × List String))
    (hk : cmap.map (·.1) = template_columns) (df : Frame) (hwf : df.wf) :
    (processSheet fb cmap df).wf ∧ (processSheet fb cmap df).names = template_columns ∧
      (processSheet fb cmap df).kinded :=
  ⟨preprocess_wf fb (map_columns df cmap) (map_columns_wf df hwf cmap hk),
   by rw [processSheet, preprocess_names, map_columns_names],
   preprocess_kinded fb (map_columns df cmap)⟩

theorem emptyPTemplate_wf : emptyPTemplate.wf := by
  intro p hp
  simp only [emptyPTemplate, List.mem_map] at hp
  obtain ⟨n, -, rfl⟩ := hp
  rfl

theorem emptyPTemplate_names : emptyPTemplate.names = template_columns := rfl

theorem fold_nrows (fb : String → Option TS) (cmap : List (String × List String)) :
    ∀ (sheets : List Frame) (acc : PFrame),
      (sheets.foldl (fun acc df => concatF acc (processSheet fb cmap df)) acc).nrows =
        acc.nrows + (sheets.map (fun df => (processSheet fb cmap df).nrows)).sum := by
  intro sheets
  induction sheets with
  | nil => intro acc; simp
  | cons df rest ih =>
    intro acc
    simp only [List.foldl_cons, List.map_cons, List.sum_cons]
    rw [ih, concatF_nrows]
    omega

theorem fold_content (fb : String → Option TS) (cmap : List (String × List String))
    (hk : cmap.map (·.1) = template_columns) :
    ∀ (sheets : List Frame) (acc : PFrame), (∀ df ∈ sheets, df.wf) →
      acc.wf → acc.names = template_columns → (acc.nrows = 0 ∨ acc.kinded) →
      (sheets.foldl (fun acc df => concatF acc (processSheet fb cmap df)) acc).wf ∧
      (sheets.foldl (fun acc df => concatF acc (processSheet fb cmap df)) acc).names =
        template_columns ∧
      ((sheets.foldl (fun acc df => concatF acc (processSheet fb cmap df)) acc).nrows = 0 ∨
        (sheets.foldl (fun acc df => concatF acc (processSheet fb cmap df)) acc).kinded) ∧
      ∀ name : String,
        ((sheets.foldl (fun acc df => concatF acc (processSheet fb cmap df)) acc).getPCol
            name).rawCells =
          (acc.getPCol name).rawCells ++
            (sheets.map (fun df =>
              ((processSheet fb cmap df).getPCol name).rawCells)).flatten ∧
        ((sheets.foldl (fun acc df => concatF acc (processSheet fb cmap df)) acc).getPCol
            name).numCells =
          (acc.getPCol name).numCells ++
            (sheets.map (fun df =>
              ((processSheet fb cmap df).getPCol name).numCells)).flatten ∧
        ((sheets.foldl (fun acc df => concatF acc (processSheet fb cmap df)) acc).getPCol
            name).dateCells =
          (acc.getPCol name).dateCells ++
            (sheets.map (fun df =>
              ((processSheet fb cmap df).getPCol name).dateCells)).flatten := by
  intro sheets
  induction sheets with
  | nil =>
    intro acc _ hw hn hkd
    exact ⟨hw, hn, hkd, fun name => by simp⟩
  | cons df rest ih =>
    intro acc hall hw hn hkd
    have hdfw : df.wf := hall df (by simp)
    obtain ⟨pw, pn, pk⟩ := processSheet_good fb cmap hk df hdfw
    obtain ⟨gw, gn, gk, gc⟩ :=
      concatF_good acc (processSheet fb cmap df) hw hn hkd pw pn pk
    obtain ⟨rw', rn, rk, rc⟩ :=
      ih (concatF acc (processSheet fb cmap df))
        (fun d hd => hall d (by simp [hd])) gw gn gk
    simp only [List.foldl_cons]
    refine ⟨rw', rn, rk, fun name => ?_⟩
    obtain ⟨r1, r2, r3⟩ := rc name
    obtain ⟨g1, g2, g3⟩ := gc name
    simp only [List.map_cons, List.flatten_cons]
    exact ⟨by rw [r1, g1, List.append_assoc],
           by rw [r2, g2, List.append_assoc],
           by rw [r3, g3, List.append_assoc]⟩

/-- **C7.** For every list of selected sheets (each wellformed) and any
alias map keyed by the 12 template columns, the Combined Table's row
count equals the sum of the selected sheets' processed (mapped) row
counts, and every column of the Combined Table is the concatenation, in
sheet selection order, of that column across the per-sheet processed
tables, each sheet's cells kept in their original row order — no
deduplication, no sorting. -/
theorem claimC7 (fb : String → Option TS) (cmap : List (String × List String))
    (hk : cmap.map (·.1) = template_columns)
    (sheets : List Frame) (hwf : ∀ df ∈ sheets, df.wf) :
    (combinedOf fb cmap sheets).nrows =
      (sheets.map (fun df => (processSheet fb cmap df).nrows)).sum ∧
    ∀ name : String,
      ((combinedOf fb cmap sheets).getPCol name).rawCells =
        (sheets.map (fun df =>
          ((processSheet fb cmap df).getPCol name).rawCells)).flatten ∧
      ((combinedOf fb cmap sheets).getPCol name).numCells =
        (sheets.map (fun df =>
          ((processSheet fb cmap df).getPCol name).numCells)).flatten ∧
      ((combinedOf fb cmap sheets).getPCol name).dateCells =
        (sheets.map (fun df =>
          ((processSheet fb cmap df).getPCol name).dateCells)).flatten := by
  constructor
  · rw [combinedOf, fold_nrows]
    simp [emptyPTemplate]
  · intro name
    obtain ⟨h1, h2, h3⟩ :=
      (fold_content fb cmap hk sheets emptyPTemplate hwf emptyPTemplate_wf
        emptyPTemplate_names (Or.inl rfl)).2.2.2 name
    obtain ⟨e1, e2, e3⟩ :=
      emptyPTemplate.getPCol_cells_nil emptyPTemplate_wf rfl name
    rw [combinedOf, h1, h2, h3, e1, e2, e3]
    exact ⟨List.nil_append _, List.nil_append _, List.nil_append _⟩

/-- Witness for C7 at two concrete one-row Books sheets. -/
theorem claimC7_witness :
    (combinedOf (fun _ => none) books_column_map
        [⟨1, [("Customer Name", [some "A"])]⟩,
         ⟨1, [("Customer Name", [some "B"])]⟩]).nrows =
      ([⟨1, [("Customer Name", [some "A"])]⟩,
        ⟨1, [("Customer Name", [some "B"])]⟩].map
          (fun df => (processSheet (fun _ => none) books_column_map df).nrows)).sum ∧
    ((combinedOf (fun _ => none) books_column_map
        [⟨1, [("Customer Name", [some "A"])]⟩,
         ⟨1, [("Customer Name", [some "B"])]⟩]).getPCol "RECEIVER NAME").rawCells =
      ([⟨1, [("Customer Name", [some "A"])]⟩,
        ⟨1, [("Customer Name", [some "B"])]⟩].map
          (fun df => ((processSheet (fun _ => none) books_column_map df).getPCol
            "RECEIVER NAME").rawCells)).flatten ∧
    (combinedOf (fun _ => none) books_column_map
        [⟨1, [("Customer Name", [some "A"])]⟩,
         ⟨1, [("Customer Name", [some "B"])]⟩]).nrows = 2 ∧
    ((combinedOf (fun _ => none) books_column_map
        [⟨1, [("Customer Name", [some "A"])]⟩,
         ⟨1, [("Customer Name", [some "B"])]⟩]).getPCol "RECEIVER NAME").rawCells =
      [some "A", some "B"] :=
  ⟨(claimC7 (fun _ => none) books_column_map (by decide)
      [⟨1, [("Customer Name", [some "A"])]⟩,
       ⟨1, [("Customer Name", [some "B"])]⟩] (by decide)).1,
   ((claimC7 (fun _ => none) books_column_map (by decide)
      [⟨1, [("Customer Name", [some "A"])]⟩,
       ⟨1, [("Customer Name", [some "B"])]⟩] (by decide)).2 "RECEIVER NAME").1,
   by decide, by decide⟩

/-- **C8 (amended).** The Exporter offers nothing exactly when neither
combined table is non-empty; an empty combined table never contributes a
file; when both tables are non-empty the ZIP holds both files; when
exactly one table is non-empty the Exporter still wraps that single file
in the ZIP archive — it never offers a standalone file. -/
theorem claimC8 (books gst : Option PFrame) :
    (exporter books gst = Output.nothing ↔
      (nonemptyTable books || nonemptyTable gst) = false) ∧
    (∀ files, exporter books gst = Output.zipArchive files →
      ∀ p ∈ files, 0 < p.2.nrows) ∧
    (∀ name f, exporter books gst ≠ Output.standalone name f) ∧
    (∀ b g, books = some b → gst = some g → 0 < b.nrows → 0 < g.nrows →
      exporter books gst = Output.zipArchive
        [("Books_AutoFilled_Template.xlsx", b),
         ("GST_AutoFilled_Combined_Template.xlsx", g)]) ∧
    (∀ b, books = some b → 0 < b.nrows → nonemptyTable gst = false →
      exporter books gst = Output.zipArchive
        [("Books_AutoFilled_Template.xlsx", b)]) ∧
    (∀ g, gst = some g → 0 < g.nrows → nonemptyTable books = false →
      exporter books gst = Output.zipArchive
        [("GST_AutoFilled_Combined_Template.xlsx", g)]) := by
  refine ⟨?_, ?_, ?_, ?_, ?_, ?_⟩
  · unfold exporter
    by_cases h : (nonemptyTable books || nonemptyTable gst) = true
    · rw [if_pos h]
      simp [h]
    · rw [if_neg h]
      simp [Bool.not_eq_true] at h
      simp [h]
  · intro files hf p hp
    unfold exporter at hf
    split at hf
    · cases hf
      rcases List.mem_append.mp hp with hm | hm
      · cases books with
        | none => cases hm
        | some b =>
          dsimp only at hm
          by_cases hb : 0 < b.nrows
          · rw [if_pos hb] at hm
            rcases List.mem_singleton.mp hm with rfl
            exact hb
          · rw [if_neg hb] at hm
            cases hm
      · cases gst with
        | none => cases hm
        | some g =>
          dsimp only at hm
          by_cases hg : 0 < g.nrows
          · rw [if_pos hg] at hm
            rcases List.mem_singleton.mp hm with rfl
            exact hg
          · rw [if_neg hg] at hm
            cases hm
    · cases hf
  · intro name f h
    unfold exporter at h
    split at h <;> cases h
  · rintro b g rfl rfl h1 h2
    unfold exporter
    rw [if_pos (by simp [nonemptyTable, h1])]
    dsimp only
    rw [if_pos h1, if_pos h2]
    rfl
  · rintro b rfl h1 hg
    unfold exporter
    rw [if_pos (by simp [nonemptyTable, h1])]
    dsimp only
    rw [if_pos h1]
    cases gst with
    | none => rfl
    | some g =>
      simp only [nonemptyTable, decide_eq_false_iff_not] at hg
      dsimp only
      rw [if_neg hg, List.append_nil]
  · rintro g rfl h2 hb
    unfold exporter
    rw [if_pos (by simp [nonemptyTable, h2])]
    dsimp only
    rw [if_pos h2]
    cases books with
    | none => rfl
    | some b =>
      simp only [nonemptyTable, decide_eq_false_iff_not] at hb
      dsimp only
      rw [if_neg hb, List.nil_append]

/-- Witness for C8: a non-empty Books table and a non-empty GST table go
into one ZIP; two absent uploads yield no download. -/
theorem claimC8_witness :
    exporter (some ⟨1, [("GSTIN/UIN", PCol.raw [some "x"])]⟩)
        (some ⟨2, [("GSTIN/UIN", PCol.raw [some "y", some "z"])]⟩) =
      Output.zipArchive
        [("Books_AutoFilled_Template.xlsx", ⟨1, [("GSTIN/UIN", PCol.raw [some "x"])]⟩),
         ("GST_AutoFilled_Combined_Template.xlsx",
           ⟨2, [("GSTIN/UIN", PCol.raw [some "y", some "z"])]⟩)] ∧
    exporter none none = Output.nothing :=
  ⟨(claimC8 (some ⟨1, [("GSTIN/UIN", PCol.raw [some "x"])]⟩)
        (some ⟨2, [("GSTIN/UIN", PCol.raw [some "y", some "z"])]⟩)).2.2.2.1
      ⟨1, [("GSTIN/UIN", PCol.raw [some "x"])]⟩
      ⟨2, [("GSTIN/UIN", PCol.raw [some "y", some "z"])]⟩
      rfl rfl (by decide) (by decide),
   (claimC8 none none).1.mpr (by decide)⟩

/-- Counterexample for C8 as stated: with exactly one non-empty combined
table (Books non-empty, no GST upload) the code still offers the ZIP
archive, not a standalone file. -/
theorem claimC8_counterexample :
    nonemptyTable (some (⟨1, [("GSTIN/UIN", PCol.raw [some "x"])]⟩ : PFrame)) = true ∧
    nonemptyTable (none : Option PFrame) = false ∧
    exporter (some ⟨1, [("GSTIN/UIN", PCol.raw [some "x"])]⟩) none =
      Output.zipArchive
        [("Books_AutoFilled_Template.xlsx", ⟨1, [("GSTIN/UIN", PCol.raw [some "x"])]⟩)] ∧
    exporter (some ⟨1, [("GSTIN/UIN", PCol.raw [some "x"])]⟩) none ≠
      Output.standalone "Books_AutoFilled_Template.xlsx"
        ⟨1, [("GSTIN/UIN", PCol.raw [some "x"])]⟩ := by
  refine ⟨rfl, rfl, ?_, ?_⟩ <;> decide

/-- **C9.** The upload widget accepts the `csv` extension alongside
`xlsx`/`xls`, and a workbook upload is read successfully; but the read
step passes every upload to `pd.ExcelFile`, which raises for
comma-separated content, so a CSV upload always fails to read — the
pipeline does not actually support the CSV inputs it advertises. -/
theorem claimC9 :
    ∀ (text : String) (sheets : List (String × Frame)),
      uploaderAccepts ⟨"csv", FileContent.commaSeparated text⟩ = true ∧
      uploaderAccepts ⟨"xlsx", FileContent.workbook sheets⟩ = true ∧
      readUpload ⟨"xlsx", FileContent.workbook sheets⟩ = Except.ok sheets ∧
      readUpload ⟨"csv", FileContent.commaSeparated text⟩ =
        Except.error
          "Excel file format cannot be determined, you must specify an engine manually." :=
  fun _ _ => ⟨rfl, rfl, rfl, rfl⟩
